import Mathlib

/-!
Verification of the mount communication and motion core of `saao_pyobs`
(`examples/piggybacktelescope.py` and `examples/TelescopeComm.py`).

Python strings are modelled as `List Char`, Python floats as `ℚ` (exact
rationals; the source performs no operation whose spec-level behaviour
depends on binary-float rounding), Python ints as `ℤ`/`ℕ`, and the
dynamically-typed int/float distinction (needed for the `tracking` bug)
as an explicit `PyNum` sum.  Loops that poll the serial line are given a
fuel parameter; the serial transport is an oracle mapping the index of a
transaction to the reply it produces.
-/

/-! ## Python primitives -/

/-- Python `%` on reals with a positive modulus: result in `[0, m)`. -/
def pymod (a m : ℚ) : ℚ := a - m * (⌊a / m⌋ : ℤ)

/-- Python `int(q)`: truncation toward zero. -/
def ratTrunc (q : ℚ) : ℤ := if 0 ≤ q then ⌊q⌋ else -⌊-q⌋

/-- Binary digits of `n`, most significant first, as produced by Python
`bin(n)[2:]` (so `binAux` on `0` yields `[0]`).  The first argument is
fuel, making the definition structurally recursive and kernel-reducible;
`binDigits` supplies enough fuel. -/
def binAux : Nat → Nat → List Nat
  | 0, _ => []
  | f + 1, n => if n < 2 then [n] else binAux f (n / 2) ++ [n % 2]

/-- `bin(n)[2:]` as a list of numeric binary digits. -/
def binDigits (n : Nat) : List Nat := binAux (n + 1) n

/-- Render one binary digit as the character Python uses. -/
def bitChar (d : Nat) : Char := if d = 0 then '0' else '1'

/-- `bin(n)[2:]` as the list of characters of the Python string. -/
def binChars (n : Nat) : List Char := (binDigits n).map bitChar

/-- Value of a hex digit character, as in Python `int(s, 16)` (valid
digits only; the sources only ever parse strings made of valid digits). -/
def hexDigitVal (c : Char) : Nat :=
  if 97 ≤ c.toNat then c.toNat - 87 else c.toNat - 48

/-- The character Python uses for hex digit `d < 16` (lowercase). -/
def hexDigitChar (d : Nat) : Char :=
  if d < 10 then Char.ofNat (48 + d) else Char.ofNat (87 + d)

/-- Hex digits of `n`, most significant first, as produced by Python
`hex(n)[2:]` for `n ≥ 0` (fuel-driven like `binAux`). -/
def hexAux : Nat → Nat → List Char
  | 0, _ => []
  | f + 1, n => if n < 16 then [hexDigitChar n] else hexAux f (n / 16) ++ [hexDigitChar (n % 16)]

/-- `hex(n)[2:]` for a natural number `n`. -/
def pyhex (n : Nat) : List Char := hexAux (n + 1) n

/-- `hex(n)` including the `0x` prefix (used in the GOTO polling loops,
which compare `hex(data[0]) == hex(255)`). -/
def pyhexFull (n : Nat) : List Char := '0' :: 'x' :: pyhex n

/-- Python `int(s, 2)` on a string of binary digits. -/
def parseBin (l : List Char) : Nat :=
  l.foldl (fun a c => 2 * a + (if c = '1' then 1 else 0)) 0

/-- Python `int(s, 16)` on a string of hex digits. -/
def parseHexN (l : List Char) : Nat :=
  l.foldl (fun a c => 16 * a + hexDigitVal c) 0

/-- The `if len(h) < 2: h = "0" + h` padding idiom of the source. -/
def pad2 (h : List Char) : List Char := if h.length < 2 then '0' :: h else h

/-- The numeric value of a list of binary digits, most significant
first (proof-side companion of `parseBin`). -/
def digitsVal (l : List Nat) : Nat := l.foldl (fun a d => 2 * a + d) 0

/-! ## AngleCodec (piggybacktelescope.encodeAngle / decodeAngle) -/

/-- The byte-splitting part of `piggyBackTelescope.encodeAngle`, acting
on the already-truncated integer: render with `bin`, zero-pad on the
left to 24 binary digits, slice into three 8-digit groups, parse each
group with `int(_, 2)` and render it as a two-character lowercase hex
string. -/
def encodeBytes (integer : Nat) : List Char × List Char × List Char :=
  let b := binChars integer
  let add := 24 - b.length
  let bp := List.replicate add '0' ++ b
  let b1 := parseBin (bp.take 8)
  let b2 := parseBin ((bp.drop 8).take 8)
  let b3 := parseBin ((bp.drop 16).take 8)
  (pad2 (pyhex b1), pad2 (pyhex b2), pad2 (pyhex b3))

/-- `piggyBackTelescope.encodeAngle`, translated line by line:
normalize with `% 360`, truncate `(alpha/360) * 2**24` with `int`,
then split into bytes (`encodeBytes`). -/
def encodeAngle (alpha : ℚ) : List Char × List Char × List Char :=
  let a := pymod alpha 360
  encodeBytes (ratTrunc (a / 360 * 2 ^ 24)).toNat

/-- `piggyBackTelescope.decodeAngle`: parse the three hex strings and
scale `2^16*v1 + 2^8*v2 + v3` by `360 / 2^24`. -/
def decodeAngle (h1 h2 h3 : List Char) : ℚ :=
  let v1 := parseHexN h1
  let v2 := parseHexN h2
  let v3 := parseHexN h3
  ((2 ^ 16 * v1 + 2 ^ 8 * v2 + v3 : ℕ) : ℚ) / 2 ^ 24 * 360

/-- The 24-bit integer the encoder actually produces for `alpha`
(truncation, not rounding). -/
def encInt (alpha : ℚ) : Nat := (ratTrunc (pymod alpha 360 / 360 * 2 ^ 24)).toNat

/-- A two-character zero-padded big-endian hex byte, the claim-level
description of each component of the encoder's output. -/
def hexByte2 (b : Nat) : List Char := [hexDigitChar (b / 16), hexDigitChar (b % 16)]

/-- Modelled from the spec words of claim C1 ("maps it to a 24-bit
unsigned integer via round(a/360 * 2^24) ... three 8-bit big-endian
bytes"): identical to the code's pipeline except that the integer is
obtained by rounding instead of `int` truncation.  Used only to compare
against `encodeAngle`. -/
def encodeAngleSpecRound (alpha : ℚ) : List Char × List Char × List Char :=
  let a := pymod alpha 360
  let n : Nat := (round (a / 360 * 2 ^ 24)).toNat
  (hexByte2 (n / 2 ^ 16), hexByte2 (n / 2 ^ 8 % 2 ^ 8), hexByte2 (n % 2 ^ 8))

/-! ## Protocol frame constants (class attributes of `piggyBackTelescope`) -/

def RA_GOTO_RUN : List Char := "5001101300000001".data
def DEC_GOTO_RUN : List Char := "5001111300000001".data
def GOTO_MOT1_SLOW : List Char := "50041017".data
def GOTO_MOT1_FAST : List Char := "50041002".data
def GOTO_MOT2_SLOW : List Char := "50041117".data
def GOTO_MOT2_FAST : List Char := "50041102".data
def GOTO_STOP : List Char := "4d".data
def POS_MOT1_TRACKING : List Char := "50031006".data
def NEG_MOT1_TRACKING : List Char := "50031007".data
def POS_MOT2_TRACKING : List Char := "50031106".data
def NEG_MOT2_TRACKING : List Char := "50031107".data
def TRACKING_END_SEQUENCE : List Char := "0000".data
def GET_MOT1_COMMAND : List Char := "5001100100000003".data
def GET_MOT2_COMMAND : List Char := "5001110100000003".data

/-! ## Frame builders -/

/-- `piggyBackTelescope.GOTO_MOT1`: opcode (fast or slow) followed by the
encoded angle and the `"00"` terminator. -/
def GOTO_MOT1 (alpha : ℚ) (fast : Bool) : List Char :=
  let e := encodeAngle alpha
  (if fast then GOTO_MOT1_FAST else GOTO_MOT1_SLOW) ++ e.1 ++ e.2.1 ++ e.2.2 ++ "00".data

/-- `piggyBackTelescope.GOTO_MOT2`. -/
def GOTO_MOT2 (alpha : ℚ) (fast : Bool) : List Char :=
  let e := encodeAngle alpha
  (if fast then GOTO_MOT2_FAST else GOTO_MOT2_SLOW) ++ e.1 ++ e.2.1 ++ e.2.2 ++ "00".data

/-! ## Motor angle reads (GET_MOT1 / GET_MOT2)

`GET_MOT1` and `GET_MOT2` are identical up to the command frame and the
cache field (`self.mot1` / `self.mot2`); both are modelled by
`GET_MOT_model`, which takes the transport reply (a list of byte
values) and the previously cached angle and returns the pair
(returned value, new cached value). -/

/-- Body of `piggyBackTelescope.GET_MOT1`/`GET_MOT2` after the
transaction: if the reply has length 4 decode bytes 0..2 (via the same
hex-string round trip as the source) and update the cache, otherwise
log a warning and keep the cached angle. -/
def GET_MOT_model (data : List Nat) (cached : ℚ) : ℚ × ℚ :=
  if data.length = 4 then
    let h1 := pad2 (pyhex (data.getD 0 0))
    let h2 := pad2 (pyhex (data.getD 1 0))
    let h3 := pad2 (pyhex (data.getD 2 0))
    let m := decodeAngle h1 h2 h3
    (m, m)
  else
    (cached, cached)

/-- Modelled from the spec words of claim C6 ("validates the reply
length equals the protocol's expected payload size (3 bytes); on
mismatch, returns the previously cached angle"; on a match it decodes
and updates).  Used only to compare against `GET_MOT_model`. -/
def readMotorAngleSpec (data : List Nat) (cached : ℚ) : ℚ × ℚ :=
  if data.length = 3 then
    let m := ((2 ^ 16 * data.getD 0 0 + 2 ^ 8 * data.getD 1 0 + data.getD 2 0 : ℕ) : ℚ)
        / 2 ^ 24 * 360
    (m, m)
  else
    (cached, cached)

/-! ## GOTO destination computation (TelescopeComm.GOTO_RADEC /
piggyBackTelescope._move_radec) -/

/-- `np.sign` on a rational value. -/
def pySign (q : ℚ) : ℚ := if q < 0 then -1 else if q = 0 then 0 else 1

/-- `TelescopeComm.AngleDiff` = `piggyBackTelescope.HourAngle`:
hour difference `(LST - RA) % 24` folded into `(-12, 12]` and converted
to degrees by `* 15`. -/
def HourAngle (LST RA : ℚ) : ℚ :=
  let hourDiff := pymod (LST - RA) 24
  let hourDiff := if 12 < hourDiff then -24 + hourDiff else hourDiff
  hourDiff * 15

/-- The motor-target computation of `TelescopeComm.GOTO_RADEC` (float
branch; `piggyBackTelescope._move_radec` performs the same computation
after converting its degree input to hours): reduce `RA` mod 24, take
the hour angle, and branch on its `np.sign` for both motor targets.
Returns `(angle1, angle2)` = (motor1 target, motor2 target). -/
def GOTO_RADEC_targets (RA DEC LST : ℚ) : ℚ × ℚ :=
  let RA2 := pymod RA 24
  let angle := HourAngle LST RA2
  let sign := pySign angle
  let angle2 := if 0 ≤ sign then 180 - DEC else DEC
  let angle2 := pymod angle2 360
  let angle1 := if 0 ≤ sign then angle else pymod angle 180
  (angle1, angle2)

/-- Modelled from the spec words of claim C7: `normalizeSigned` maps an
hour count into the signed range `(-12, 12]` (congruent mod 24). -/
def normalizeSigned (h : ℚ) : ℚ :=
  if 12 < pymod h 24 then pymod h 24 - 24 else pymod h 24

/-- Modelled from the spec words of claim C7: `τ = normalizeSigned((LST
− RA) mod 24h)` converted to degrees by `×15`; motor2 target `(180 −
Dec)` if `τ ≥ 0` else `Dec`, reduced mod 360; motor1 target `τ` if `τ ≥
0` else `τ mod 180`.  Used only to compare against
`GOTO_RADEC_targets`. -/
def gotoDestSpec (RA DEC LST : ℚ) : ℚ × ℚ :=
  let tau := normalizeSigned (pymod (LST - RA) 24) * 15
  (if 0 ≤ tau then tau else pymod tau 180,
   pymod (if 0 ≤ tau then 180 - DEC else DEC) 360)

/-! ## Tracking (piggyBackTelescope.tracking)

The `tracking` coroutine is dynamically typed: an integer rate flows
through `//` as an int, a float rate flows through `//` as a float, and
`hex()` on a float raises `TypeError`.  `PyNum` records the runtime
type. -/

inductive PyNum
  | int (v : ℤ)
  | float (v : ℚ)
deriving DecidableEq

/-- Decidable equality for `Except` results (used to evaluate the
tracking model on concrete inputs). -/
instance exceptDecEq {ε α : Type _} [DecidableEq ε] [DecidableEq α] :
    DecidableEq (Except ε α) := fun a b =>
  match a, b with
  | .error e, .error f =>
    if h : e = f then isTrue (congrArg Except.error h)
    else isFalse (fun hc => h (by injection hc))
  | .ok x, .ok y =>
    if h : x = y then isTrue (congrArg Except.ok h)
    else isFalse (fun hc => h (by injection hc))
  | .error _, .ok _ => isFalse (fun hc => Except.noConfusion hc)
  | .ok _, .error _ => isFalse (fun hc => Except.noConfusion hc)

/-- The numeric value of a `PyNum`. -/
def PyNum.val : PyNum → ℚ
  | .int v => (v : ℚ)
  | .float v => v

/-- True for a float-typed value. -/
def PyNum.isFloat : PyNum → Bool
  | .int _ => false
  | .float _ => true

/-- `np.abs`, preserving the runtime type. -/
def pyAbs : PyNum → PyNum
  | .int v => .int |v|
  | .float v => .float |v|

/-- Multiplication by an integer literal, preserving the runtime type. -/
def pyMulInt (x : PyNum) (k : ℤ) : PyNum :=
  match x with
  | .int v => .int (v * k)
  | .float v => .float (v * k)

/-- Python `//` by a positive integer literal: floor division.  An int
stays an int; a float yields a float with integral value. -/
def pyFloorDivInt (x : PyNum) (k : ℤ) : PyNum :=
  match x with
  | .int v => .int (Int.fdiv v k)
  | .float v => .float ((⌊v / k⌋ : ℤ) : ℚ)

/-- Python `-` where either side may be a float. -/
def pySub (x y : PyNum) : PyNum :=
  match x, y with
  | .int a, .int b => .int (a - b)
  | .int a, .float b => .float (a - b)
  | .float a, .int b => .float (a - b)
  | .float a, .float b => .float (a - b)

/-- Python `int(x)`: truncation toward zero for floats. -/
def pyToInt : PyNum → ℤ
  | .int v => v
  | .float v => ratTrunc v

/-- Python `hex(x)[2:]`: defined for ints (the sources only apply it to
non-negative values), raises `TypeError` on a float. -/
def pyHexE : PyNum → Except Unit (List Char)
  | .int v => .ok (pyhex v.toNat)
  | .float _ => .error ()

/-- `piggyBackTelescope.tracking`, following the source's order of
effects: the cached rate fields are overwritten first; the numeric
encodings of both axes are computed; then the four `hex()` renderings
run in source order (mot1 high, mot1 low, mot2 high, mot2 low), each
of which raises `TypeError` on a float-typed argument; on success the
two command frames are assembled (opcode chosen by `np.sign >= 0`) and
submitted in the order mot1 then mot2.  The result is
(cached rates, `Except` of the submitted frame pair). -/
def tracking (rate_mot1 rate_mot2 : PyNum) :
    (PyNum × PyNum) × Except Unit (List Char × List Char) :=
  let cached := (rate_mot1, rate_mot2)
  let sign_mot1 := pySign rate_mot1.val
  let sign_mot2 := pySign rate_mot2.val
  let r1 := pyAbs rate_mot1
  let r2 := pyAbs rate_mot2
  let encode_rate_mot1 := pyMulInt r1 4
  let h1_mot1 := pyFloorDivInt encode_rate_mot1 256
  let tmp1 := pySub encode_rate_mot1 (pyMulInt h1_mot1 256)
  let h2_mot1 : ℤ := pyToInt tmp1
  let encode_rate_mot2 := pyMulInt r2 4
  let h1_mot2 := pyFloorDivInt encode_rate_mot2 256
  let tmp2 := pySub encode_rate_mot2 (pyMulInt h1_mot2 256)
  let h2_mot2 : ℤ := pyToInt tmp2
  (cached, do
    let h1s_mot1 ← pyHexE h1_mot1
    let h2s_mot1 ← pyHexE (.int h2_mot1)
    let h1s_mot1 := pad2 h1s_mot1
    let h2s_mot1 := pad2 h2s_mot1
    let h1s_mot2 ← pyHexE h1_mot2
    let h2s_mot2 ← pyHexE (.int h2_mot2)
    let h1s_mot2 := pad2 h1s_mot2
    let h2s_mot2 := pad2 h2s_mot2
    let cmd1 :=
      if 0 ≤ sign_mot1 then POS_MOT1_TRACKING ++ h1s_mot1 ++ h2s_mot1 ++ TRACKING_END_SEQUENCE
      else NEG_MOT1_TRACKING ++ h1s_mot1 ++ h2s_mot1 ++ TRACKING_END_SEQUENCE
    let cmd2 :=
      if 0 ≤ sign_mot2 then POS_MOT2_TRACKING ++ h1s_mot2 ++ h2s_mot2 ++ TRACKING_END_SEQUENCE
      else NEG_MOT2_TRACKING ++ h1s_mot2 ++ h2s_mot2 ++ TRACKING_END_SEQUENCE
    pure (cmd1, cmd2))

/-- The frames actually submitted to the serial channel by a `tracking`
call: both frames on success, none when a `TypeError` is raised before
the first `RS232_Talk`. -/
def trackingFramesSubmitted (rate_mot1 rate_mot2 : PyNum) : List (List Char) :=
  match (tracking rate_mot1 rate_mot2).2 with
  | .ok (c1, c2) => [c1, c2]
  | .error _ => []

/-! ## The GOTO move loop (piggyBackTelescope.__move)

`__move` talks to the serial line only through `RS232_Talk`; for the
purposes of the slew state machine each `RS232_Talk` call is one
transaction.  The transport is an oracle `fb` giving, for the `k`-th
transaction of the run and the frame written, the first byte
(`data[0]`) of the reply.  The abort flag is a predicate `abort` on the
number of transactions performed so far (the loop condition samples
`abort_event.is_set()` once per iteration).  Both poll loops have no
termination guarantee, so they carry fuel; a run that exhausts its fuel
is reported as `none`. -/

/-- State threaded through a `__move` run: transaction counter and the
frames written so far. -/
structure MoveSt where
  tx : Nat
  frames : List (List Char)
deriving DecidableEq

/-- One `RS232_Talk` call: record the frame, bump the counter. -/
def talk (frame : List Char) (s : MoveSt) : MoveSt :=
  ⟨s.tx + 1, s.frames ++ [frame]⟩

/-- How one of `__move`'s two polling loops ends. -/
inductive PollOut
  | conv
  | aborted
  | fuelout
deriving DecidableEq

/-- One of the two identical polling loops of `__move`:
`while test is False and abort_event.is_set() is False:` poll the RA
status frame (unless `ra_running`), then the DEC status frame (unless
`dec_running`); a poll reply counts as stopped when
`hex(data[0]) == hex(255)`; when both flags are set, `test` becomes
true and the loop exits on the next condition check. -/
def pollPhase (fb : Nat → List Char → Nat) (abort : Nat → Bool) :
    Nat → Bool → Bool → MoveSt → MoveSt × PollOut
  | 0, _, _, s => (s, .fuelout)
  | fuel + 1, ra_running, dec_running, s =>
    if abort s.tx then (s, .aborted)
    else
      let p1 :=
        if ra_running then (ra_running, s)
        else (decide (pyhexFull (fb s.tx RA_GOTO_RUN) = pyhexFull 255), talk RA_GOTO_RUN s)
      let p2 :=
        if dec_running then (dec_running, p1.2)
        else (decide (pyhexFull (fb p1.2.tx DEC_GOTO_RUN) = pyhexFull 255), talk DEC_GOTO_RUN p1.2)
      if p1.1 && p2.1 then (p2.2, .conv)
      else pollPhase fb abort fuel p1.1 p2.1 p2.2

/-- Final motion status reported by `__move` (it always reports
`POSITIONED`; there is no aborted status in the source). -/
inductive MStat
  | slewing
  | positioned
deriving DecidableEq

/-- Result of a `__move` run. -/
structure MoveOut where
  frames : List (List Char)
  fastOut : PollOut
  slowOut : PollOut
  finalStatus : MStat
deriving DecidableEq

/-- `piggyBackTelescope.__move`: submit the fast frames (mot2 then
mot1), run the fast polling loop, then — regardless of how that loop
ended — submit the slow frames (mot2 then mot1), run the slow polling
loop, and report `POSITIONED`. -/
def move (mot1 mot2 : ℚ) (fb : Nat → List Char → Nat) (abort : Nat → Bool)
    (fuel : Nat) : Option MoveOut :=
  let mot2_fast := GOTO_MOT2 mot2 true
  let mot2_slow := GOTO_MOT2 mot2 false
  let mot1_fast := GOTO_MOT1 mot1 true
  let mot1_slow := GOTO_MOT1 mot1 false
  let s1 := talk mot2_fast ⟨0, []⟩
  let s2 := talk mot1_fast s1
  match pollPhase fb abort fuel false false s2 with
  | (_, .fuelout) => none
  | (s3, fastOut) =>
    let s4 := talk mot2_slow s3
    let s5 := talk mot1_slow s4
    match pollPhase fb abort fuel false false s5 with
    | (_, .fuelout) => none
    | (s6, slowOut) => some ⟨s6.frames, fastOut, slowOut, .positioned⟩

/-! ## The RS232 command queue (piggyBackTelescope.RS232_Talk)

`RS232_Talk` is a coroutine; its suspension points are its `await`
expressions: the two lock acquisitions, `event.wait()` and
`sleep(0.05)`.  In particular `ser.write(s)` and `ser.readline()` have
no `await` between them, so the serial write and read of a transaction
are one atomic block and are modelled as a single step that emits both
serial events.  The lock-protected blocks contain no suspension point
either, so each is a single atomic step.  The model allows a scheduler
choice at every step boundary — a superset of the boundaries marked by
an `await` in the source — so every safety statement proved over all
schedules also covers the real interleavings; conversely, a concrete
schedule that runs each task's consecutive steps back to back and parks
tasks only at an `await` (the wait loop, or a lock acquisition) is
realizable. -/

/-- Program points of one `RS232_Talk` invocation:
`start` — before the lock-protected enqueue block;
`clearing` — about to run `event.clear()` after the enqueue;
`checking` — about to evaluate `RS232_QUEUE.index(my_id) != 0`;
`waiting` — suspended in `event.wait()`;
`sleeping` — suspended in `sleep(0.05)` (followed by `event.clear()`
and a re-check);
`writing` — about to run `ser.write(s)` followed immediately by
`ser.readline()` (no suspension point between the two);
`popping` — holds the lock again, about to `RS232_QUEUE.pop(0)`;
`setting` — about to run `event.set()` and return. -/
inductive QPC
  | start
  | clearing
  | checking
  | waiting
  | sleeping
  | writing
  | popping
  | setting
  | done
deriving DecidableEq

/-- One concurrent caller of `RS232_Talk`. -/
structure QTask where
  pc : QPC
  myId : Nat
deriving DecidableEq

/-- Observable events: a ticket being enqueued, and the serial write
and read of a transaction (tagged with the ticket). -/
inductive QEv
  | enq (i : Nat)
  | write (i : Nat)
  | read (i : Nat)
deriving DecidableEq

/-- Shared state: the `identity` counter, `RS232_QUEUE`, the wake-up
event flag, the event/serial trace, and the task pool. -/
structure QSys where
  ident : Nat
  queue : List Nat
  ev : Bool
  trace : List QEv
  tasks : List QTask
deriving DecidableEq

/-- One scheduler step: run the next atomic block of task `i` (a no-op
for an out-of-range index, a finished task, or a task blocked in
`event.wait()` while the flag is down). -/
def stepTask (s : QSys) (i : Nat) : QSys :=
  if hi : i < s.tasks.length then
    let t := s.tasks[i]
    match t.pc with
    | .start =>
      let newId := (s.ident + 1) % 10000
      { s with ident := newId,
               queue := s.queue ++ [newId],
               trace := s.trace ++ [.enq newId],
               tasks := s.tasks.set i ⟨.clearing, newId⟩ }
    | .clearing => { s with ev := false, tasks := s.tasks.set i ⟨.checking, t.myId⟩ }
    | .checking =>
      if s.queue.indexOf t.myId = 0 then { s with tasks := s.tasks.set i ⟨.writing, t.myId⟩ }
      else { s with tasks := s.tasks.set i ⟨.waiting, t.myId⟩ }
    | .waiting =>
      if s.ev then { s with tasks := s.tasks.set i ⟨.sleeping, t.myId⟩ } else s
    | .sleeping => { s with ev := false, tasks := s.tasks.set i ⟨.checking, t.myId⟩ }
    | .writing =>
      { s with trace := s.trace ++ [.write t.myId, .read t.myId],
               tasks := s.tasks.set i ⟨.popping, t.myId⟩ }
    | .popping => { s with queue := s.queue.tail, tasks := s.tasks.set i ⟨.setting, t.myId⟩ }
    | .setting => { s with ev := true, tasks := s.tasks.set i ⟨.done, t.myId⟩ }
    | .done => s
  else s

/-- `n` fresh concurrent callers, idle shared state. -/
def initSys (n : Nat) : QSys := ⟨0, [], false, [], List.replicate n ⟨.start, 0⟩⟩

/-- Run a schedule (a list of task indices). -/
def runSched (s : QSys) (sched : List Nat) : QSys := sched.foldl stepTask s

/-- The tickets enqueued, in order. -/
def enqIds : List QEv → List Nat
  | [] => []
  | .enq i :: r => i :: enqIds r
  | .write _ :: r => enqIds r
  | .read _ :: r => enqIds r

/-- The tickets whose serial write has happened, in order. -/
def writeIds : List QEv → List Nat
  | [] => []
  | .enq _ :: r => writeIds r
  | .write i :: r => i :: writeIds r
  | .read _ :: r => writeIds r

/-- The tickets whose serial read has happened, in order. -/
def readIds : List QEv → List Nat
  | [] => []
  | .enq _ :: r => readIds r
  | .write _ :: r => readIds r
  | .read i :: r => i :: readIds r

/-- The serial (write/read) events only. -/
def serialOf : List QEv → List QEv
  | [] => []
  | .enq _ :: r => serialOf r
  | .write i :: r => .write i :: serialOf r
  | .read i :: r => .read i :: serialOf r

/-- The alternating write/read pair sequence of a list of tickets. -/
def pairSeq : List Nat → List QEv
  | [] => []
  | i :: r => .write i :: .read i :: pairSeq r

/-- A serial trace consists of complete write/read pairs on a single
ticket each, possibly followed by one pending write. -/
def wellPaired : List QEv → Bool
  | [] => true
  | [.write _] => true
  | .write i :: .read j :: rest => i == j && wellPaired rest
  | _ => false

/-! ## The guarded release section of RS232_Talk (claim C9)

After the serial read, `RS232_Talk` re-acquires the lock and runs
`try: self.RS232_QUEUE.pop(0) except: log.error(...); status := ERROR`,
then releases the lock, sets the event and returns the reply.  The pop
removes the head whatever it is — the caller's ticket is not consulted
— and a failure (pop from an empty list raises `IndexError`) is caught
by the bare `except`, logged, and execution continues. -/

/-- Python `list.pop(0)`: head and tail on a non-empty list,
`IndexError` on an empty one. -/
def pyPopHead (q : List Nat) : Except Unit (Nat × List Nat) :=
  match q with
  | [] => .error ()
  | x :: t => .ok (x, t)

/-- The `try/except` block around `RS232_QUEUE.pop(0)`: returns the new
queue together with a flag recording whether the error branch (log +
`MotionStatus.ERROR`) ran.  It never propagates an exception. -/
def releaseSection (q : List Nat) : List Nat × Bool :=
  match pyPopHead q with
  | .ok (_, t) => (t, false)
  | .error _ => (q, true)

/-- The tail of `RS232_Talk` after the serial read: the guarded pop,
then `event.set()` and a normal return of the reply (the final `true`
records that the call returns normally). -/
def RS232_Talk_finish (q : List Nat) : (List Nat × Bool) × Bool :=
  (releaseSection q, true)

/-! ## Task predicates for the queue invariant -/

/-- The task has run its enqueue block. -/
def isEnqueued (t : QTask) : Bool :=
  match t.pc with
  | .start => false
  | _ => true

/-- The task's serial write (and, the two being one atomic block, its
serial read) has happened. -/
def hasWritten (t : QTask) : Bool :=
  match t.pc with
  | .popping | .setting | .done => true
  | _ => false

/-- The task's serial read has happened. -/
def hasRead (t : QTask) : Bool :=
  match t.pc with
  | .popping | .setting | .done => true
  | _ => false

/-- The task's pop has happened. -/
def hasPopped (t : QTask) : Bool :=
  match t.pc with
  | .setting | .done => true
  | _ => false

/-- The task is between passing the head check and popping: it owns the
serial line. -/
def inRegion (t : QTask) : Bool :=
  match t.pc with
  | .writing | .popping => true
  | _ => false

/-- The task is enqueued and not yet popped, i.e. its ticket is in the
queue. -/
def isActive (t : QTask) : Bool := isEnqueued t && !hasPopped t

/-- Tickets of the enqueued tasks of a pool. -/
def enqueuedIds (ts : List QTask) : List Nat :=
  ts.filterMap (fun t => if isEnqueued t then some t.myId else none)

/-! ## Claim C4: the RS232 queue serializes transactions -/

def isPopping (t : QTask) : Bool := t.pc == QPC.popping

/-- The inductive invariant of the queue system for at most 10000
concurrent callers. -/
structure QInv (n : Nat) (s : QSys) : Prop where
  hlen : s.tasks.length = n
  henq : enqIds s.trace =
    (List.range (s.tasks.countP isEnqueued)).map (fun k => (k + 1) % 10000)
  hEn : s.tasks.countP isEnqueued ≤ n
  hident : s.ident = s.tasks.countP isEnqueued % 10000
  hqueue : s.queue = (enqIds s.trace).drop (s.tasks.countP hasPopped)
  hids : (enqueuedIds s.tasks).Perm (enqIds s.trace)
  hmem : ∀ t ∈ s.tasks, isActive t = true → t.myId ∈ s.queue
  hhead : ∀ t ∈ s.tasks, inRegion t = true → s.queue.head? = some t.myId
  hW : writeIds s.trace = (enqIds s.trace).take (s.tasks.countP hasWritten)
  hR : readIds s.trace = (enqIds s.trace).take (s.tasks.countP hasRead)
  hserial : serialOf s.trace = pairSeq (readIds s.trace)

/-! # Lemmas

## Binary and hex string infrastructure -/

lemma foldl_two_mul (l : List Nat) (a : Nat) :
    l.foldl (fun a d => 2 * a + d) a = a * 2 ^ l.length + digitsVal l := by
  induction l generalizing a with
  | nil => simp [digitsVal]
  | cons d t ih =>
    simp only [List.foldl_cons, List.length_cons, digitsVal]
    rw [ih (2 * a + d), ih (2 * 0 + d)]
    ring

lemma digitsVal_cons (d : Nat) (t : List Nat) :
    digitsVal (d :: t) = d * 2 ^ t.length + digitsVal t := by
  simpa [digitsVal] using foldl_two_mul t d

lemma digitsVal_append (xs ys : List Nat) :
    digitsVal (xs ++ ys) = digitsVal xs * 2 ^ ys.length + digitsVal ys := by
  simp only [digitsVal, List.foldl_append]
  exact foldl_two_mul ys (xs.foldl (fun a d => 2 * a + d) 0)

lemma digitsVal_lt (l : List Nat) (h : ∀ d ∈ l, d < 2) :
    digitsVal l < 2 ^ l.length := by
  induction l with
  | nil => simp [digitsVal]
  | cons d t ih =>
    have hd : d < 2 := h d (by simp)
    have ht := ih (fun x hx => h x (by simp [hx]))
    rw [digitsVal_cons]
    have : d * 2 ^ t.length ≤ 1 * 2 ^ t.length := by
      exact Nat.mul_le_mul_right _ (by omega)
    simp only [List.length_cons, pow_succ]
    omega

lemma digitsVal_replicate_zero (k : Nat) (l : List Nat) :
    digitsVal (List.replicate k 0 ++ l) = digitsVal l := by
  rw [digitsVal_append]
  have : digitsVal (List.replicate k 0) = 0 := by
    induction k with
    | zero => simp [digitsVal]
    | succ n ih => rw [List.replicate_succ, digitsVal_cons]; simp [ih]
  simp [this]

lemma binAux_val (f : Nat) : ∀ n, n < f → digitsVal (binAux f n) = n := by
  induction f with
  | zero => omega
  | succ f ih =>
    intro n hn
    by_cases h2 : n < 2
    · simp [binAux, h2, digitsVal]
    · have hrec : n / 2 < f := by omega
      simp only [binAux, h2, if_false]
      rw [digitsVal_append, ih (n / 2) hrec]
      simp [digitsVal]
      omega

lemma binAux_bits (f : Nat) : ∀ n, ∀ d ∈ binAux f n, d < 2 := by
  induction f with
  | zero => intro n d hd; simp [binAux] at hd
  | succ f ih =>
    intro n d hd
    by_cases h2 : n < 2
    · simp [binAux, h2] at hd; omega
    · simp only [binAux, h2, if_false, List.mem_append, List.mem_singleton] at hd
      rcases hd with hd | hd
      · exact ih _ d hd
      · omega

lemma binAux_length (f : Nat) : ∀ n k, n < f → n < 2 ^ k → 1 ≤ k → (binAux f n).length ≤ k := by
  induction f with
  | zero => omega
  | succ f ih =>
    intro n k hn hk h1
    by_cases h2 : n < 2
    · simp [binAux, h2]; omega
    · simp only [binAux, h2, if_false, List.length_append, List.length_singleton]
      have hk2 : 2 ≤ k := by
        by_contra hlt
        interval_cases k
        omega
      have : n / 2 < 2 ^ (k - 1) := by
        have : 2 ^ k = 2 ^ (k - 1) * 2 := by
          rw [← pow_succ]
          congr 1
          omega
        omega
      have := ih (n / 2) (k - 1) (by omega) this (by omega)
      omega

lemma hexDigitVal_hexDigitChar (d : Nat) (h : d < 16) :
    hexDigitVal (hexDigitChar d) = d := by
  interval_cases d <;> decide

lemma parseHexN_snoc (l : List Char) (c : Char) :
    parseHexN (l ++ [c]) = 16 * parseHexN l + hexDigitVal c := by
  simp [parseHexN, List.foldl_append]

lemma hexAux_val (f : Nat) : ∀ n, n < f → parseHexN (hexAux f n) = n := by
  induction f with
  | zero => omega
  | succ f ih =>
    intro n hn
    by_cases h16 : n < 16
    · simp [hexAux, h16, parseHexN, hexDigitVal_hexDigitChar n h16]
    · have hrec : n / 16 < f := by omega
      simp only [hexAux, h16, if_false]
      rw [parseHexN_snoc, ih (n / 16) hrec, hexDigitVal_hexDigitChar _ (by omega)]
      omega

lemma pyhex_val (n : Nat) : parseHexN (pyhex n) = n := hexAux_val (n + 1) n (by omega)

lemma pyhex_injOn {a b : Nat} (h : pyhex a = pyhex b) : a = b := by
  have := pyhex_val a
  rw [h, pyhex_val b] at this
  omega

lemma pyhexFull_eq_iff (a b : Nat) : pyhexFull a = pyhexFull b ↔ a = b := by
  constructor
  · intro h
    simp only [pyhexFull, List.cons.injEq, true_and] at h
    exact pyhex_injOn h
  · intro h; rw [h]

lemma hexAux_small (f : Nat) (n : Nat) (hf : n < f) (h : n < 16) :
    hexAux f n = [hexDigitChar n] := by
  cases f with
  | zero => omega
  | succ f => simp [hexAux, h]

lemma pad2_pyhex (n : Nat) (h : n < 256) : pad2 (pyhex n) = hexByte2 n := by
  by_cases h16 : n < 16
  · rw [pyhex, hexAux_small _ _ (by omega) h16]
    have h0 : n / 16 = 0 := by omega
    have h1 : n % 16 = n := by omega
    simp [pad2, hexByte2, h0, h1, hexDigitChar]
  · have hdiv : n / 16 < 16 := by omega
    rw [pyhex]
    have : hexAux (n + 1) n = hexAux n (n / 16) ++ [hexDigitChar (n % 16)] := by
      simp [hexAux, h16]
    rw [this, hexAux_small n (n / 16) (by omega) hdiv]
    simp [pad2, hexByte2]

lemma parseHexN_hexByte2 (b : Nat) (h : b < 256) : parseHexN (hexByte2 b) = b := by
  have h1 : b / 16 < 16 := by omega
  have h2 : b % 16 < 16 := by omega
  simp [hexByte2, parseHexN, hexDigitVal_hexDigitChar _ h1, hexDigitVal_hexDigitChar _ h2]
  omega

lemma parseBin_map_bitChar (ds : List Nat) (h : ∀ d ∈ ds, d < 2) :
    parseBin (ds.map bitChar) = digitsVal ds := by
  suffices hgen : ∀ (a : Nat),
      (ds.map bitChar).foldl (fun a c => 2 * a + (if c = '1' then 1 else 0)) a =
        ds.foldl (fun a d => 2 * a + d) a by
    simpa [parseBin, digitsVal] using hgen 0
  induction ds with
  | nil => intro a; simp
  | cons d t ih =>
    intro a
    have hd : d < 2 := h d (by simp)
    have hchar : (if bitChar d = '1' then 1 else 0) = d := by
      interval_cases d <;> decide
    simp only [List.map_cons, List.foldl_cons, hchar]
    exact ih (fun x hx => h x (by simp [hx])) (2 * a + d)

/-! ## The encoder splits into exactly the three big-endian bytes -/

lemma encodeBytes_eq (n : Nat) (h : n < 2 ^ 24) :
    encodeBytes n = (hexByte2 (n / 2 ^ 16), hexByte2 (n / 2 ^ 8 % 2 ^ 8), hexByte2 (n % 2 ^ 8)) := by
  have hbits : ∀ d ∈ binDigits n, d < 2 := binAux_bits (n + 1) n
  have hval : digitsVal (binDigits n) = n := binAux_val (n + 1) n (by omega)
  have hlen : (binDigits n).length ≤ 24 := binAux_length (n + 1) n 24 (by omega) h (by omega)
  set dp : List Nat := List.replicate (24 - (binDigits n).length) 0 ++ binDigits n with hdp
  have hdpbits : ∀ d ∈ dp, d < 2 := by
    intro d hd
    rcases List.mem_append.mp hd with hd | hd
    · have := List.eq_of_mem_replicate hd; omega
    · exact hbits d hd
  have hdplen : dp.length = 24 := by
    simp only [hdp, List.length_append, List.length_replicate]
    omega
  have hdpval : digitsVal dp = n := by
    rw [hdp, digitsVal_replicate_zero, hval]
  have hbp : List.replicate (24 - (binChars n).length) '0' ++ binChars n = dp.map bitChar := by
    simp only [binChars, hdp, List.map_append, List.map_replicate, List.length_map]
    rfl
  set t1 := dp.take 8 with ht1
  set t23 := dp.drop 8 with ht23
  set t2 := t23.take 8 with ht2
  set t3 := t23.drop 8 with ht3
  have hsplit : dp = t1 ++ (t2 ++ t3) := by
    have h23 : t2 ++ t3 = t23 := by rw [ht2, ht3]; exact List.take_append_drop 8 t23
    rw [h23, ht1, ht23]
    exact (List.take_append_drop 8 dp).symm
  have hlent1 : t1.length = 8 := by rw [ht1, List.length_take]; omega
  have hlent23 : t23.length = 16 := by rw [ht23, List.length_drop]; omega
  have hlent2 : t2.length = 8 := by rw [ht2, List.length_take]; omega
  have hlent3 : t3.length = 8 := by rw [ht3, List.length_drop]; omega
  have hbits1 : ∀ d ∈ t1, d < 2 := fun d hd => hdpbits d (List.take_subset _ _ hd)
  have hbits23 : ∀ d ∈ t23, d < 2 := fun d hd => hdpbits d (List.drop_subset _ _ hd)
  have hbits2 : ∀ d ∈ t2, d < 2 := fun d hd => hbits23 d (List.take_subset _ _ hd)
  have hbits3 : ∀ d ∈ t3, d < 2 := fun d hd => hbits23 d (List.drop_subset _ _ hd)
  have hv1lt : digitsVal t1 < 2 ^ 8 := by have := digitsVal_lt t1 hbits1; rwa [hlent1] at this
  have hv2lt : digitsVal t2 < 2 ^ 8 := by have := digitsVal_lt t2 hbits2; rwa [hlent2] at this
  have hv3lt : digitsVal t3 < 2 ^ 8 := by have := digitsVal_lt t3 hbits3; rwa [hlent3] at this
  have hsum : digitsVal t1 * 2 ^ 16 + (digitsVal t2 * 2 ^ 8 + digitsVal t3) = n := by
    rw [← hdpval, hsplit, digitsVal_append, digitsVal_append, List.length_append,
      hlent2, hlent3]
  have hv1 : digitsVal t1 = n / 2 ^ 16 := by omega
  have hv2 : digitsVal t2 = n / 2 ^ 8 % 2 ^ 8 := by omega
  have hv3 : digitsVal t3 = n % 2 ^ 8 := by omega
  show (pad2 (pyhex (parseBin ((List.replicate (24 - (binChars n).length) '0' ++ binChars n).take 8))),
        pad2 (pyhex (parseBin (((List.replicate (24 - (binChars n).length) '0' ++ binChars n).drop 8).take 8))),
        pad2 (pyhex (parseBin (((List.replicate (24 - (binChars n).length) '0' ++ binChars n).drop 16).take 8)))) = _
  rw [hbp]
  have hmt1 : (dp.map bitChar).take 8 = t1.map bitChar := by
    rw [ht1, List.map_take]
  have hmt2 : ((dp.map bitChar).drop 8).take 8 = t2.map bitChar := by
    rw [ht2, ht23, List.map_take, List.map_drop]
  have hmt3 : (dp.map bitChar).drop 16 = t3.map bitChar := by
    rw [ht3, ht23, List.map_drop, List.map_drop, List.drop_drop]
  have hmt3' : ((dp.map bitChar).drop 16).take 8 = t3.map bitChar := by
    rw [hmt3]
    apply List.take_of_length_le
    rw [List.length_map, hlent3]
  rw [hmt1, hmt2, hmt3']
  rw [parseBin_map_bitChar t1 hbits1, parseBin_map_bitChar t2 hbits2, parseBin_map_bitChar t3 hbits3]
  rw [pad2_pyhex _ (by omega), pad2_pyhex _ (by omega), pad2_pyhex _ (by omega)]
  rw [hv1, hv2, hv3]

/-! ## Rational-side lemmas -/

lemma pymod_nonneg (a m : ℚ) (hm : 0 < m) : 0 ≤ pymod a m := by
  have h1 : (⌊a / m⌋ : ℚ) ≤ a / m := Int.floor_le _
  have h2 : m * (⌊a / m⌋ : ℚ) ≤ m * (a / m) := by
    exact mul_le_mul_of_nonneg_left h1 (le_of_lt hm)
  rw [mul_div_cancel₀ a (ne_of_gt hm)] at h2
  simp [pymod]
  linarith

lemma pymod_lt (a m : ℚ) (hm : 0 < m) : pymod a m < m := by
  have h1 : a / m < (⌊a / m⌋ : ℚ) + 1 := Int.lt_floor_add_one _
  have h2 : m * (a / m) < m * ((⌊a / m⌋ : ℚ) + 1) := by
    exact mul_lt_mul_of_pos_left h1 hm
  rw [mul_div_cancel₀ a (ne_of_gt hm)] at h2
  simp only [pymod]
  nlinarith

lemma ratTrunc_of_nonneg (q : ℚ) (h : 0 ≤ q) : ratTrunc q = ⌊q⌋ := by
  simp [ratTrunc, h]

lemma pymod_self_of_lt (a m : ℚ) (h0 : 0 ≤ a) (h1 : a < m) : pymod a m = a := by
  have hm : 0 < m := lt_of_le_of_lt h0 h1
  have : ⌊a / m⌋ = 0 := by
    rw [Int.floor_eq_zero_iff]
    constructor
    · positivity
    · rw [div_lt_one hm] at *
      simpa using h1
  simp [pymod, this]

lemma encInt_eq_floor (alpha : ℚ) :
    (encInt alpha : ℤ) = ⌊pymod alpha 360 / 360 * 2 ^ 24⌋ := by
  have h0 : (0:ℚ) ≤ pymod alpha 360 / 360 * 2 ^ 24 := by
    have := pymod_nonneg alpha 360 (by norm_num)
    positivity
  rw [encInt, ratTrunc_of_nonneg _ h0, Int.toNat_of_nonneg (Int.floor_nonneg.mpr h0)]

lemma encInt_lt (alpha : ℚ) : encInt alpha < 2 ^ 24 := by
  have hlt : pymod alpha 360 / 360 * 2 ^ 24 < 2 ^ 24 := by
    have h := pymod_lt alpha 360 (by norm_num)
    have : pymod alpha 360 / 360 < 1 := by
      rw [div_lt_one (by norm_num : (0:ℚ) < 360)]
      exact h
    nlinarith
  have := encInt_eq_floor alpha
  have hfl : ⌊pymod alpha 360 / 360 * 2 ^ 24⌋ < (2 ^ 24 : ℤ) := by
    have := Int.floor_le (pymod alpha 360 / 360 * 2 ^ 24)
    exact_mod_cast Int.floor_lt.mpr (by exact_mod_cast hlt)
  omega

lemma encodeAngle_eq_encodeBytes (alpha : ℚ) :
    encodeAngle alpha = encodeBytes (encInt alpha) := rfl

lemma encodeAngle_bytes (alpha : ℚ) :
    encodeAngle alpha =
      (hexByte2 (encInt alpha / 2 ^ 16), hexByte2 (encInt alpha / 2 ^ 8 % 2 ^ 8),
       hexByte2 (encInt alpha % 2 ^ 8)) := by
  rw [encodeAngle_eq_encodeBytes, encodeBytes_eq _ (encInt_lt alpha)]

lemma decode_encode (a : ℚ) :
    decodeAngle (encodeAngle a).1 (encodeAngle a).2.1 (encodeAngle a).2.2 =
      (encInt a : ℚ) / 2 ^ 24 * 360 := by
  rw [encodeAngle_bytes]
  have hn := encInt_lt a
  simp only [decodeAngle]
  rw [parseHexN_hexByte2 _ (by omega), parseHexN_hexByte2 _ (by omega),
    parseHexN_hexByte2 _ (by omega)]
  have hbytes : 2 ^ 16 * (encInt a / 2 ^ 16) + 2 ^ 8 * (encInt a / 2 ^ 8 % 2 ^ 8) +
      encInt a % 2 ^ 8 = encInt a := by omega
  rw [hbytes]

/-! ## Claims C1 and C2 -/

/-- C1 (amended): for every angle `alpha`, `encodeAngle` first
normalizes into `[0, 360)` (with `360` normalizing to `0`), maps the
result to a 24-bit unsigned integer by TRUNCATING `alpha/360 * 2^24`
(Python `int`, which is `floor` on the non-negative normalized value —
not `round` as the claim states), zero-pads the bit pattern on the
most-significant side to exactly 24 bits, and returns the three 8-bit
big-endian bytes of that integer as two-character hex strings. -/
theorem encodeAngle_truncate_bytes (alpha : ℚ) :
    encodeAngle alpha =
      (hexByte2 (encInt alpha / 2 ^ 16), hexByte2 (encInt alpha / 2 ^ 8 % 2 ^ 8),
        hexByte2 (encInt alpha % 2 ^ 8)) ∧
    (encInt alpha : ℤ) = ⌊pymod alpha 360 / 360 * 2 ^ 24⌋ ∧
    encInt alpha < 2 ^ 24 ∧
    0 ≤ pymod alpha 360 ∧ pymod alpha 360 < 360 ∧ pymod 360 360 = 0 := by
  refine ⟨encodeAngle_bytes alpha, encInt_eq_floor alpha, encInt_lt alpha,
    pymod_nonneg alpha 360 (by norm_num), pymod_lt alpha 360 (by norm_num), ?_⟩
  have : ⌊(360:ℚ) / 360⌋ = 1 := by norm_num
  simp [pymod, this]

/-- C1 (counterexample): at `alpha = 81/4194304` (where
`alpha/360 * 2^24 = 9/10`), the encoder truncates to 0 and returns
bytes (0,0,0), while the claimed `round(alpha/360 * 2^24)` gives 1 and
bytes (0,0,1) — so `encodeAngle` does not implement the rounding the
claim states. -/
theorem encodeAngle_round_counterexample :
    encodeAngle (81 / 4194304) ≠ encodeAngleSpecRound (81 / 4194304) ∧
    encodeAngle (81 / 4194304) = (['0','0'], ['0','0'], ['0','0']) ∧
    encodeAngleSpecRound (81 / 4194304) = (['0','0'], ['0','0'], ['0','1']) := by
  have hpm : pymod (81 / 4194304 : ℚ) 360 = 81 / 4194304 :=
    pymod_self_of_lt _ _ (by norm_num) (by norm_num)
  have hx : pymod (81 / 4194304 : ℚ) 360 / 360 * 2 ^ 24 = 9 / 10 := by
    rw [hpm]; norm_num
  have henc : encInt (81 / 4194304 : ℚ) = 0 := by
    have h := encInt_eq_floor (81 / 4194304 : ℚ)
    rw [hx] at h
    have h9 : ⌊(9 / 10 : ℚ)⌋ = 0 := by norm_num
    omega
  have h1 : encodeAngle (81 / 4194304 : ℚ) = (['0','0'], ['0','0'], ['0','0']) := by
    rw [encodeAngle_eq_encodeBytes, henc]
    decide
  have h2 : encodeAngleSpecRound (81 / 4194304 : ℚ) = (['0','0'], ['0','0'], ['0','1']) := by
    simp only [encodeAngleSpecRound]
    rw [hx]
    have hr : round ((9:ℚ)/10) = 1 := by norm_num [round_eq]
    rw [hr]
    decide
  refine ⟨?_, h1, h2⟩
  rw [h1, h2]
  decide

/-- C2: for every angle `a` in `[0, 360)`, decoding the three bytes
produced by `encodeAngle a` yields a value within one quantization step
(`360/2^24` degrees) of `a`. -/
theorem decode_encode_roundtrip (a : ℚ) (h0 : 0 ≤ a) (h1 : a < 360) :
    |decodeAngle (encodeAngle a).1 (encodeAngle a).2.1 (encodeAngle a).2.2 - a| ≤
      360 / 2 ^ 24 := by
  rw [decode_encode]
  have hpm : pymod a 360 = a := pymod_self_of_lt a 360 h0 h1
  have hfl : (encInt a : ℤ) = ⌊a / 360 * 2 ^ 24⌋ := by
    have := encInt_eq_floor a
    rwa [hpm] at this
  set x : ℚ := a / 360 * 2 ^ 24 with hx
  have hxa : a = x * 360 / 2 ^ 24 := by
    rw [hx]
    field_simp
  have hle : ((encInt a : ℤ) : ℚ) ≤ x := by rw [hfl]; exact Int.floor_le x
  have hgt : x < ((encInt a : ℤ) : ℚ) + 1 := by rw [hfl]; exact Int.lt_floor_add_one x
  have hcast : ((encInt a : ℤ) : ℚ) = (encInt a : ℚ) := by push_cast; ring
  rw [hcast] at hle hgt
  have hdiff : (encInt a : ℚ) / 2 ^ 24 * 360 - a = ((encInt a : ℚ) - x) * (360 / 2 ^ 24) := by
    rw [hxa]; ring
  rw [hdiff, abs_mul, abs_of_pos (by norm_num : (0:ℚ) < 360 / 2 ^ 24)]
  have habs : |(encInt a : ℚ) - x| ≤ 1 := by
    rw [abs_le]
    constructor <;> linarith
  nlinarith [habs]

/-- C2 (witness): the round-trip bound instantiated at `a = 90`. -/
theorem decode_encode_roundtrip_witness :
    (0:ℚ) ≤ 90 ∧ (90:ℚ) < 360 ∧
    |decodeAngle (encodeAngle 90).1 (encodeAngle 90).2.1 (encodeAngle 90).2.2 - 90| ≤
      360 / 2 ^ 24 :=
  ⟨by norm_num, by norm_num, decode_encode_roundtrip 90 (by norm_num) (by norm_num)⟩

/-! ## Claim C6: motor-angle reads and malformed replies -/

/-- The decoded value of the first three reply bytes, as the claim
describes it. -/
lemma GET_MOT_decode (data : List Nat) (cached : ℚ) (hlen : data.length = 4)
    (hbytes : ∀ b ∈ data, b < 256) :
    GET_MOT_model data cached =
      (((2 ^ 16 * data.getD 0 0 + 2 ^ 8 * data.getD 1 0 + data.getD 2 0 : ℕ) : ℚ)
          / 2 ^ 24 * 360,
       ((2 ^ 16 * data.getD 0 0 + 2 ^ 8 * data.getD 1 0 + data.getD 2 0 : ℕ) : ℚ)
          / 2 ^ 24 * 360) := by
  have hb : ∀ i, data.getD i 0 < 256 ∨ data.getD i 0 = 0 := by
    intro i
    by_cases hi : i < data.length
    · left
      rw [List.getD_eq_getElem data 0 hi]
      exact hbytes _ (List.getElem_mem hi)
    · right
      rw [List.getD_eq_default data 0 (by omega)]
  have hb0 : data.getD 0 0 < 256 := by rcases hb 0 with h | h <;> omega
  have hb1 : data.getD 1 0 < 256 := by rcases hb 1 with h | h <;> omega
  have hb2 : data.getD 2 0 < 256 := by rcases hb 2 with h | h <;> omega
  simp only [GET_MOT_model, hlen, if_pos, decodeAngle,
    pad2_pyhex _ hb0, pad2_pyhex _ hb1, pad2_pyhex _ hb2,
    parseHexN_hexByte2 _ hb0, parseHexN_hexByte2 _ hb1, parseHexN_hexByte2 _ hb2]

/-- C6 (amended): the expected reply length is 4 bytes (the three angle
bytes at offsets 0..2 plus one trailing byte), not 3: a reply of any
other length — including the claimed "expected" length 3 — leaves the
cached angle unchanged, is returned as the result, and raises nothing;
a 4-byte reply is decoded from its first three bytes and both returned
and stored in the cache. -/
theorem GET_MOT_reply_handling (data : List Nat) (cached : ℚ)
    (hbytes : ∀ b ∈ data, b < 256) :
    (data.length ≠ 4 → GET_MOT_model data cached = (cached, cached)) ∧
    (data.length = 4 → GET_MOT_model data cached =
      (((2 ^ 16 * data.getD 0 0 + 2 ^ 8 * data.getD 1 0 + data.getD 2 0 : ℕ) : ℚ)
          / 2 ^ 24 * 360,
       ((2 ^ 16 * data.getD 0 0 + 2 ^ 8 * data.getD 1 0 + data.getD 2 0 : ℕ) : ℚ)
          / 2 ^ 24 * 360)) := by
  constructor
  · intro hne
    simp [GET_MOT_model, hne]
  · intro hlen
    exact GET_MOT_decode data cached hlen hbytes

/-- C6 (witness): a 4-byte reply `0x40 0x00 0x00 0x11` decodes to 90
degrees and replaces the cached value 5; a 3-byte reply leaves the
cache at 5. -/
theorem GET_MOT_reply_handling_witness :
    (∀ b ∈ [64, 0, 0, 17], b < 256) ∧
    GET_MOT_model [64, 0, 0, 17] 5 = (90, 90) ∧
    GET_MOT_model [0, 0, 0] 5 = (5, 5) := by
  refine ⟨by decide, ?_, ?_⟩
  · have h := (GET_MOT_reply_handling [64, 0, 0, 17] 5 (by decide)).2 (by decide)
    rw [h]
    norm_num
  · exact (GET_MOT_reply_handling [0, 0, 0] 5 (by decide)).1 (by decide)

/-- C6 (counterexample): on the reply `[0, 0, 0]` — which has exactly
the "expected payload size (3 bytes)" the claim names — the code does
NOT decode (which would give angle 0) and does NOT update the cache: it
returns the previously cached angle 90.  The expected length in the
code is 4, not 3. -/
theorem GET_MOT_three_byte_counterexample :
    GET_MOT_model [0, 0, 0] 90 = (90, 90) ∧
    readMotorAngleSpec [0, 0, 0] 90 = (0, 0) ∧
    GET_MOT_model [0, 0, 0] 90 ≠ readMotorAngleSpec [0, 0, 0] 90 := by
  have h1 : GET_MOT_model [0, 0, 0] 90 = (90, 90) := by
    simp [GET_MOT_model]
  have h2 : readMotorAngleSpec [0, 0, 0] 90 = (0, 0) := by
    simp [readMotorAngleSpec]
  refine ⟨h1, h2, ?_⟩
  rw [h1, h2]
  intro h
  have := congrArg Prod.fst h
  norm_num at this

/-! ## Claim C7: GOTO destination computation -/

lemma pymod_add_int_mul (a m : ℚ) (k : ℤ) (hm : m ≠ 0) :
    pymod (a + m * k) m = pymod a m := by
  have hdiv : (a + m * k) / m = a / m + k := by
    field_simp
    ring
  simp only [pymod, hdiv, Int.floor_add_int]
  push_cast
  ring

lemma pymod_idem (a m : ℚ) (hm : 0 < m) : pymod (pymod a m) m = pymod a m :=
  pymod_self_of_lt _ _ (pymod_nonneg a m hm) (pymod_lt a m hm)

lemma pymod_sub_pymod (x y m : ℚ) (hm : 0 < m) :
    pymod (x - pymod y m) m = pymod (x - y) m := by
  have h : x - pymod y m = (x - y) + m * (⌊y / m⌋ : ℤ) := by
    simp only [pymod]
    ring
  rw [h, pymod_add_int_mul _ _ _ (ne_of_gt hm)]

lemma pySign_nonneg_iff (q : ℚ) : 0 ≤ pySign q ↔ 0 ≤ q := by
  unfold pySign
  split_ifs with h1 h2
  · constructor
    · intro h; linarith
    · intro h; linarith
  · simp [h2]
  · constructor
    · intro h
      linarith [not_lt.mp h1]
    · intro h
      norm_num

/-- C7: the motor targets computed by `GOTO_RADEC` agree with the
claim's formula — `τ = normalizeSigned((LST − RA) mod 24) × 15`, motor2
target `(180 − Dec)` if `τ ≥ 0` else `Dec`, reduced mod 360, motor1
target `τ` if `τ ≥ 0` else `τ mod 180` — and `normalizeSigned` lands in
`(-12, 12]` and differs from `LST − RA` by a whole number of 24-hour
turns. -/
theorem goto_radec_destination (RA DEC LST : ℚ) :
    GOTO_RADEC_targets RA DEC LST = gotoDestSpec RA DEC LST ∧
    -12 < normalizeSigned (pymod (LST - RA) 24) ∧
    normalizeSigned (pymod (LST - RA) 24) ≤ 12 ∧
    ∃ k : ℤ, (LST - RA) - normalizeSigned (pymod (LST - RA) 24) = 24 * k := by
  have hd : pymod (LST - pymod RA 24) 24 = pymod (LST - RA) 24 :=
    pymod_sub_pymod LST RA 24 (by norm_num)
  have hidem : pymod (pymod (LST - RA) 24) 24 = pymod (LST - RA) 24 :=
    pymod_idem _ _ (by norm_num)
  have h0 : 0 ≤ pymod (LST - RA) 24 := pymod_nonneg _ _ (by norm_num)
  have h24 : pymod (LST - RA) 24 < 24 := pymod_lt _ _ (by norm_num)
  constructor
  · have hangle : HourAngle LST (pymod RA 24) = normalizeSigned (pymod (LST - RA) 24) * 15 := by
      simp only [HourAngle, normalizeSigned, hd, hidem]
      by_cases hc : 12 < pymod (LST - RA) 24 <;> simp [hc] <;> try ring
    simp only [GOTO_RADEC_targets, gotoDestSpec, hangle]
    have hsign : (0 ≤ pySign (normalizeSigned (pymod (LST - RA) 24) * 15)) ↔
        (0 ≤ normalizeSigned (pymod (LST - RA) 24) * 15) := pySign_nonneg_iff _
    by_cases hpos : 0 ≤ normalizeSigned (pymod (LST - RA) 24) * 15
    · simp [hsign.mpr, hpos]
    · have : ¬ (0 ≤ pySign (normalizeSigned (pymod (LST - RA) 24) * 15)) := by
        rw [hsign]; exact hpos
      simp [this, hpos]
  · refine ⟨?_, ?_, ?_⟩
    · simp only [normalizeSigned, hidem]
      by_cases hc : 12 < pymod (LST - RA) 24 <;> simp [hc] <;> linarith
    · simp only [normalizeSigned, hidem]
      by_cases hc : 12 < pymod (LST - RA) 24 <;> simp [hc] <;> linarith
    · simp only [normalizeSigned, hidem]
      by_cases hc : 12 < pymod (LST - RA) 24
      · refine ⟨⌊(LST - RA) / 24⌋ + 1, ?_⟩
        rw [if_pos hc]
        simp only [pymod]
        push_cast
        ring
      · refine ⟨⌊(LST - RA) / 24⌋, ?_⟩
        rw [if_neg hc]
        simp only [pymod]
        ring

/-! ## Claims C8 and C10: tracking -/

lemma pad2_pyhex_int_of_nat (v : Nat) (h : v < 256) :
    pad2 (pyhex ((v : ℤ)).toNat) = hexByte2 v := by
  rw [Int.toNat_ofNat]
  exact pad2_pyhex v h

/-- C8: for each axis independently, integer-rate tracking encodes
`|rate| * 4` as a 16-bit value split into `high = floor(v/256)` and
`low = v mod 256`, chooses the positive-direction opcode exactly when
the rate is non-negative, and submits one frame per axis (mot1 then
mot2), each frame being opcode ++ high byte ++ low byte ++ "0000". -/
theorem tracking_int_encoding (r1 r2 : ℤ)
    (hb1 : 4 * r1.natAbs < 65536) (hb2 : 4 * r2.natAbs < 65536) :
    tracking (.int r1) (.int r2) =
      ((.int r1, .int r2),
       .ok ((if 0 ≤ r1 then POS_MOT1_TRACKING else NEG_MOT1_TRACKING) ++
              hexByte2 (4 * r1.natAbs / 256) ++ hexByte2 (4 * r1.natAbs % 256) ++
              TRACKING_END_SEQUENCE,
            (if 0 ≤ r2 then POS_MOT2_TRACKING else NEG_MOT2_TRACKING) ++
              hexByte2 (4 * r2.natAbs / 256) ++ hexByte2 (4 * r2.natAbs % 256) ++
              TRACKING_END_SEQUENCE)) := by
  have key : ∀ r : ℤ,
      (|r| * 4).fdiv 256 = ((4 * r.natAbs / 256 : ℕ) : ℤ) ∧
      |r| * 4 - ((4 * r.natAbs / 256 : ℕ) : ℤ) * 256 = ((4 * r.natAbs % 256 : ℕ) : ℤ) := by
    intro r
    have hval : |r| * 4 = ((4 * r.natAbs : ℕ) : ℤ) := by
      rw [Int.abs_eq_natAbs]; push_cast; ring
    have hfd : (|r| * 4).fdiv 256 = ((4 * r.natAbs / 256 : ℕ) : ℤ) := by
      rw [hval, Int.fdiv_eq_ediv]
      · exact_mod_cast rfl
      · norm_num
    refine ⟨hfd, ?_⟩
    rw [hval]
    omega
  obtain ⟨hd1, hm1⟩ := key r1
  obtain ⟨hd2, hm2⟩ := key r2
  have hs1 : (0 ≤ pySign ((PyNum.int r1).val)) ↔ 0 ≤ r1 := by
    rw [pySign_nonneg_iff]
    simp [PyNum.val]
  have hs2 : (0 ≤ pySign ((PyNum.int r2).val)) ↔ 0 ≤ r2 := by
    rw [pySign_nonneg_iff]
    simp [PyNum.val]
  simp only [tracking, pyAbs, pyMulInt, pyFloorDivInt, pySub, pyToInt, pyHexE,
    hd1, hd2]
  simp only [hm1, hm2]
  simp only [Except.bind, bind, pure, Except.pure]
  rw [pad2_pyhex_int_of_nat _ (by omega), pad2_pyhex_int_of_nat _ (by omega),
    pad2_pyhex_int_of_nat _ (by omega), pad2_pyhex_int_of_nat _ (by omega)]
  by_cases h1 : 0 ≤ r1 <;> by_cases h2 : 0 ≤ r2 <;>
    simp [hs1.mpr, hs2.mpr, h1, h2, hs1, hs2]

/-- C8 (witness): `tracking(+15, -15)` chooses the positive opcode for
axis 1 and the negative opcode for axis 2, with payload bytes
`high = 0` (`"00"`) and `low = 60` (`"3c"`) on each axis. -/
theorem tracking_int_encoding_witness :
    4 * (15 : ℤ).natAbs < 65536 ∧ 4 * (-15 : ℤ).natAbs < 65536 ∧
    tracking (.int 15) (.int (-15)) =
      ((.int 15, .int (-15)),
       .ok (POS_MOT1_TRACKING ++ ['0','0'] ++ ['3','c'] ++ TRACKING_END_SEQUENCE,
            NEG_MOT2_TRACKING ++ ['0','0'] ++ ['3','c'] ++ TRACKING_END_SEQUENCE)) := by
  refine ⟨by decide, by decide, ?_⟩
  have h := tracking_int_encoding 15 (-15) (by decide) (by decide)
  rw [h]
  decide

/-- C10: a float-typed rate on either axis makes `tracking` overwrite
the cached rate fields, compute a float-typed high byte by floor
division, and then raise `TypeError` in `hex()` before any frame is
submitted; with int-typed rates on both axes the call succeeds. -/
theorem tracking_float_type_error (x : ℚ) (r2 : PyNum) (a b : ℤ) :
    tracking (.float x) r2 = ((.float x, r2), .error ()) ∧
    tracking (.int a) (.float x) = ((.int a, .float x), .error ()) ∧
    (pyFloorDivInt (pyMulInt (pyAbs (.float x)) 4) 256).isFloat = true ∧
    trackingFramesSubmitted (.float x) r2 = [] ∧
    trackingFramesSubmitted (.int a) (.float x) = [] ∧
    (tracking (.int a) (.int b)).2.isOk = true := by
  have h1 : tracking (.float x) r2 = ((.float x, r2), .error ()) := by
    simp [tracking, pyAbs, pyMulInt, pyFloorDivInt, pySub, pyToInt, pyHexE,
      Except.bind, bind]
  have h2 : tracking (.int a) (.float x) = ((.int a, .float x), .error ()) := by
    simp [tracking, pyAbs, pyMulInt, pyFloorDivInt, pySub, pyToInt, pyHexE,
      Except.bind, bind]
  refine ⟨h1, h2, by simp [pyFloorDivInt, pyMulInt, pyAbs, PyNum.isFloat], ?_, ?_, ?_⟩
  · simp [trackingFramesSubmitted, h1]
  · simp [trackingFramesSubmitted, h2]
  · simp [tracking, pyAbs, pyMulInt, pyFloorDivInt, pySub, pyToInt, pyHexE,
      Except.bind, bind, pure, Except.pure, Except.isOk, Except.toBool]

/-! ## Claims C3 and C5: the GOTO move loop -/

-- frame disequality helpers
lemma ne_of_prefix_ne (p q a b : List Char) (i : Nat) (hip : i < p.length)
    (hiq : i < q.length) (hne : p[i]? ≠ q[i]?) : p ++ a ≠ q ++ b := by
  intro h
  apply hne
  rw [← @List.getElem?_append_left _ p a i hip, h, List.getElem?_append_left hiq]

lemma ne_of_prefix_ne_right (p a r : List Char) (i : Nat) (hip : i < p.length)
    (hir : i < r.length) (hne : p[i]? ≠ r[i]?) : p ++ a ≠ r := by
  have h := ne_of_prefix_ne p r a [] i hip hir hne
  rw [List.append_nil] at h
  exact h

lemma GOTO_MOT1_shape (alpha : ℚ) (fl : Bool) :
    GOTO_MOT1 alpha fl = (if fl then GOTO_MOT1_FAST else GOTO_MOT1_SLOW) ++
      ((encodeAngle alpha).1 ++ ((encodeAngle alpha).2.1 ++
        ((encodeAngle alpha).2.2 ++ "00".data))) := by
  simp [GOTO_MOT1, List.append_assoc]

lemma GOTO_MOT2_shape (alpha : ℚ) (fl : Bool) :
    GOTO_MOT2 alpha fl = (if fl then GOTO_MOT2_FAST else GOTO_MOT2_SLOW) ++
      ((encodeAngle alpha).1 ++ ((encodeAngle alpha).2.1 ++
        ((encodeAngle alpha).2.2 ++ "00".data))) := by
  simp [GOTO_MOT2, List.append_assoc]

lemma mot2_fast_ne_RA (alpha : ℚ) : GOTO_MOT2 alpha true ≠ RA_GOTO_RUN := by
  rw [GOTO_MOT2_shape]
  exact ne_of_prefix_ne_right _ _ _ 3 (by decide) (by decide) (by decide)

lemma GOTO_MOT1_ne_poll (alpha : ℚ) (fl : Bool) (r : List Char)
    (hr : r = RA_GOTO_RUN ∨ r = DEC_GOTO_RUN) : GOTO_MOT1 alpha fl ≠ r := by
  rw [GOTO_MOT1_shape]
  rcases hr with h | h <;> subst h <;>
    exact ne_of_prefix_ne_right _ _ _ 3 (by cases fl <;> decide) (by decide)
      (by cases fl <;> decide)

lemma GOTO_MOT2_ne_poll (alpha : ℚ) (fl : Bool) (r : List Char)
    (hr : r = RA_GOTO_RUN ∨ r = DEC_GOTO_RUN) : GOTO_MOT2 alpha fl ≠ r := by
  rw [GOTO_MOT2_shape]
  rcases hr with h | h <;> subst h <;>
    exact ne_of_prefix_ne_right _ _ _ 3 (by cases fl <;> decide) (by decide)
      (by cases fl <;> decide)

lemma GOTO_MOT2_fast_ne_slow (a b : ℚ) : GOTO_MOT2 a true ≠ GOTO_MOT2 b false := by
  rw [GOTO_MOT2_shape, GOTO_MOT2_shape]
  exact ne_of_prefix_ne _ _ _ _ 6 (by decide) (by decide) (by decide)

lemma GOTO_MOT1_fast_ne_slow (a b : ℚ) : GOTO_MOT1 a true ≠ GOTO_MOT1 b false := by
  rw [GOTO_MOT1_shape, GOTO_MOT1_shape]
  exact ne_of_prefix_ne _ _ _ _ 6 (by decide) (by decide) (by decide)

lemma GOTO_MOT2_ne_GOTO_MOT1 (a b : ℚ) (f1 f2 : Bool) :
    GOTO_MOT2 a f1 ≠ GOTO_MOT1 b f2 := by
  rw [GOTO_MOT1_shape, GOTO_MOT2_shape]
  exact ne_of_prefix_ne _ _ _ _ 5 (by cases f1 <;> decide) (by cases f2 <;> decide)
    (by cases f1 <;> cases f2 <;> decide)

lemma GOTO_MOT1_ne_stop (a : ℚ) (fl : Bool) : GOTO_MOT1 a fl ≠ GOTO_STOP := by
  rw [GOTO_MOT1_shape]
  exact ne_of_prefix_ne_right _ _ _ 0 (by cases fl <;> decide) (by decide)
    (by cases fl <;> decide)

lemma GOTO_MOT2_ne_stop (a : ℚ) (fl : Bool) : GOTO_MOT2 a fl ≠ GOTO_STOP := by
  rw [GOTO_MOT2_shape]
  exact ne_of_prefix_ne_right _ _ _ 0 (by cases fl <;> decide) (by decide)
    (by cases fl <;> decide)

-- polling loop: immediate abort
lemma pollPhase_abort (fb : Nat → List Char → Nat) (abort : Nat → Bool) (fuel : Nat)
    (hfuel : 1 ≤ fuel) (raR decR : Bool) (s : MoveSt) (h : abort s.tx = true) :
    pollPhase fb abort fuel raR decR s = (s, .aborted) := by
  cases fuel with
  | zero => omega
  | succ f => simp [pollPhase, h]

-- the move run when the abort flag is up from the first poll onwards
lemma move_abort_after_fast_frames (mot1 mot2 : ℚ) (fb : Nat → List Char → Nat)
    (abort : Nat → Bool) (fuel : Nat)
    (habort : ∀ k, 2 ≤ k → abort k = true) (hfuel : 1 ≤ fuel) :
    move mot1 mot2 fb abort fuel =
      some ⟨[GOTO_MOT2 mot2 true, GOTO_MOT1 mot1 true,
             GOTO_MOT2 mot2 false, GOTO_MOT1 mot1 false],
            .aborted, .aborted, .positioned⟩ := by
  have h2 : abort 2 = true := habort 2 (by omega)
  have h4 : abort 4 = true := habort 4 (by omega)
  have hp1 : pollPhase fb abort fuel false false
      ⟨2, [GOTO_MOT2 mot2 true, GOTO_MOT1 mot1 true]⟩ =
      (⟨2, [GOTO_MOT2 mot2 true, GOTO_MOT1 mot1 true]⟩, .aborted) :=
    pollPhase_abort fb abort fuel hfuel false false _ h2
  have hp2 : pollPhase fb abort fuel false false
      ⟨4, [GOTO_MOT2 mot2 true, GOTO_MOT1 mot1 true,
           GOTO_MOT2 mot2 false, GOTO_MOT1 mot1 false]⟩ =
      (⟨4, [GOTO_MOT2 mot2 true, GOTO_MOT1 mot1 true,
            GOTO_MOT2 mot2 false, GOTO_MOT1 mot1 false]⟩, .aborted) :=
    pollPhase_abort fb abort fuel hfuel false false _ h4
  simp only [move]
  rw [show talk (GOTO_MOT1 mot1 true) (talk (GOTO_MOT2 mot2 true) ⟨0, []⟩) =
      (⟨2, [GOTO_MOT2 mot2 true, GOTO_MOT1 mot1 true]⟩ : MoveSt) from rfl]
  rw [hp1]
  simp only []
  rw [show talk (GOTO_MOT1 mot1 false) (talk (GOTO_MOT2 mot2 false)
        ⟨2, [GOTO_MOT2 mot2 true, GOTO_MOT1 mot1 true]⟩) =
      (⟨4, [GOTO_MOT2 mot2 true, GOTO_MOT1 mot1 true,
            GOTO_MOT2 mot2 false, GOTO_MOT1 mot1 false]⟩ : MoveSt) from rfl]
  rw [hp2]

-- one iteration of the polling loop, characterized per flag state
lemma pollPhase_step_tt (fb : Nat → List Char → Nat) (ab : Nat → Bool) (f tx : Nat)
    (frames : List (List Char)) (hab : ab tx = false) :
    pollPhase fb ab (f + 1) true true ⟨tx, frames⟩ = (⟨tx, frames⟩, .conv) := by
  simp [pollPhase, hab]

lemma pollPhase_step_tf (fb : Nat → List Char → Nat) (ab : Nat → Bool) (f tx : Nat)
    (frames : List (List Char)) (hab : ab tx = false) :
    pollPhase fb ab (f + 1) true false ⟨tx, frames⟩ =
      if decide (pyhexFull (fb tx DEC_GOTO_RUN) = pyhexFull 255) = true
      then (⟨tx + 1, frames ++ [DEC_GOTO_RUN]⟩, .conv)
      else pollPhase fb ab f true (decide (pyhexFull (fb tx DEC_GOTO_RUN) = pyhexFull 255))
             ⟨tx + 1, frames ++ [DEC_GOTO_RUN]⟩ := by
  by_cases hb : decide (pyhexFull (fb tx DEC_GOTO_RUN) = pyhexFull 255) = true <;>
    simp [pollPhase, talk, hab, hb]

lemma pollPhase_step_ft (fb : Nat → List Char → Nat) (ab : Nat → Bool) (f tx : Nat)
    (frames : List (List Char)) (hab : ab tx = false) :
    pollPhase fb ab (f + 1) false true ⟨tx, frames⟩ =
      if decide (pyhexFull (fb tx RA_GOTO_RUN) = pyhexFull 255) = true
      then (⟨tx + 1, frames ++ [RA_GOTO_RUN]⟩, .conv)
      else pollPhase fb ab f (decide (pyhexFull (fb tx RA_GOTO_RUN) = pyhexFull 255)) true
             ⟨tx + 1, frames ++ [RA_GOTO_RUN]⟩ := by
  by_cases hb : decide (pyhexFull (fb tx RA_GOTO_RUN) = pyhexFull 255) = true <;>
    simp [pollPhase, talk, hab, hb]

lemma pollPhase_step_ff (fb : Nat → List Char → Nat) (ab : Nat → Bool) (f tx : Nat)
    (frames : List (List Char)) (hab : ab tx = false) :
    pollPhase fb ab (f + 1) false false ⟨tx, frames⟩ =
      if (decide (pyhexFull (fb tx RA_GOTO_RUN) = pyhexFull 255) &&
          decide (pyhexFull (fb (tx + 1) DEC_GOTO_RUN) = pyhexFull 255)) = true
      then (⟨tx + 2, frames ++ [RA_GOTO_RUN, DEC_GOTO_RUN]⟩, .conv)
      else pollPhase fb ab f (decide (pyhexFull (fb tx RA_GOTO_RUN) = pyhexFull 255))
             (decide (pyhexFull (fb (tx + 1) DEC_GOTO_RUN) = pyhexFull 255))
             ⟨tx + 2, frames ++ [RA_GOTO_RUN, DEC_GOTO_RUN]⟩ := by
  by_cases hb1 : decide (pyhexFull (fb tx RA_GOTO_RUN) = pyhexFull 255) = true <;>
    by_cases hb2 : decide (pyhexFull (fb (tx + 1) DEC_GOTO_RUN) = pyhexFull 255) = true <;>
      simp [pollPhase, talk, hab, hb1, hb2, List.append_assoc]

-- polling loop: convergence once the transport reports the stopped sentinel
lemma pollPhase_conv (fb : Nat → List Char → Nat) (N : Nat)
    (hfb : ∀ k frame, N ≤ k → fb k frame = 255) :
    ∀ fuel (raR decR : Bool) (s : MoveSt), 1 ≤ fuel → N < fuel + s.tx →
      ∃ p : List (List Char),
        pollPhase fb (fun _ => false) fuel raR decR s =
          (⟨s.tx + p.length, s.frames ++ p⟩, .conv) ∧
        (∀ f ∈ p, f = RA_GOTO_RUN ∨ f = DEC_GOTO_RUN) := by
  intro fuel
  induction fuel with
  | zero => intro raR decR s h1 _; omega
  | succ f ih =>
    intro raR decR s _ hN
    have hstop : ∀ k frame, N ≤ k →
        decide (pyhexFull (fb k frame) = pyhexFull 255) = true := by
      intro k frame hk
      rw [hfb k frame hk]
      simp
    have hfail : ∀ k frame,
        decide (pyhexFull (fb k frame) = pyhexFull 255) = false → k < N := by
      intro k frame hk
      by_contra hge
      rw [hstop k frame (by omega)] at hk
      simp at hk
    rcases s with ⟨tx, frames⟩
    simp only at hN
    cases raR with
    | true =>
      cases decR with
      | true =>
        refine ⟨[], ?_, by simp⟩
        rw [pollPhase_step_tt fb _ f tx frames rfl]
        simp
      | false =>
        rw [pollPhase_step_tf fb _ f tx frames rfl]
        rcases hb2 : decide (pyhexFull (fb tx DEC_GOTO_RUN) = pyhexFull 255) with _ | _
        · have htxN : tx < N := hfail tx DEC_GOTO_RUN hb2
          have hf1 : 1 ≤ f := by omega
          obtain ⟨p', hp', hmem'⟩ := ih true false ⟨tx + 1, frames ++ [DEC_GOTO_RUN]⟩ hf1
            (by simp; omega)
          refine ⟨DEC_GOTO_RUN :: p', ?_, ?_⟩
          · rw [if_neg (by simp), hp']
            simp [MoveSt.mk.injEq, List.append_assoc] <;> omega
          · intro g hg
            rcases List.mem_cons.mp hg with h | h
            · right; exact h
            · exact hmem' g h
        · refine ⟨[DEC_GOTO_RUN], ?_, by intro g hg; simp at hg; right; exact hg⟩
          rw [if_pos rfl]
          simp
    | false =>
      cases decR with
      | true =>
        rw [pollPhase_step_ft fb _ f tx frames rfl]
        rcases hb1 : decide (pyhexFull (fb tx RA_GOTO_RUN) = pyhexFull 255) with _ | _
        · have htxN : tx < N := hfail tx RA_GOTO_RUN hb1
          have hf1 : 1 ≤ f := by omega
          obtain ⟨p', hp', hmem'⟩ := ih false true ⟨tx + 1, frames ++ [RA_GOTO_RUN]⟩ hf1
            (by simp; omega)
          refine ⟨RA_GOTO_RUN :: p', ?_, ?_⟩
          · rw [if_neg (by simp), hp']
            simp [MoveSt.mk.injEq, List.append_assoc] <;> omega
          · intro g hg
            rcases List.mem_cons.mp hg with h | h
            · left; exact h
            · exact hmem' g h
        · refine ⟨[RA_GOTO_RUN], ?_, by intro g hg; simp at hg; left; exact hg⟩
          rw [if_pos rfl]
          simp
      | false =>
        rw [pollPhase_step_ff fb _ f tx frames rfl]
        rcases hb1 : decide (pyhexFull (fb tx RA_GOTO_RUN) = pyhexFull 255) with _ | _
        · have htxN : tx < N := hfail tx RA_GOTO_RUN hb1
          have hf1 : 1 ≤ f := by omega
          obtain ⟨p', hp', hmem'⟩ := ih false
            (decide (pyhexFull (fb (tx + 1) DEC_GOTO_RUN) = pyhexFull 255))
            ⟨tx + 2, frames ++ [RA_GOTO_RUN, DEC_GOTO_RUN]⟩ hf1 (by simp; omega)
          refine ⟨RA_GOTO_RUN :: DEC_GOTO_RUN :: p', ?_, ?_⟩
          · rw [if_neg (by simp), hp']
            simp [MoveSt.mk.injEq, List.append_assoc] <;> omega
          · intro g hg
            rcases List.mem_cons.mp hg with h | h
            · left; exact h
            · rcases List.mem_cons.mp h with h2 | h2
              · right; exact h2
              · exact hmem' g h2
        · rcases hb2 : decide (pyhexFull (fb (tx + 1) DEC_GOTO_RUN) = pyhexFull 255) with _ | _
          · have htxN : tx + 1 < N := hfail (tx + 1) DEC_GOTO_RUN hb2
            have hf1 : 1 ≤ f := by omega
            obtain ⟨p', hp', hmem'⟩ := ih true false
              ⟨tx + 2, frames ++ [RA_GOTO_RUN, DEC_GOTO_RUN]⟩ hf1 (by simp; omega)
            refine ⟨RA_GOTO_RUN :: DEC_GOTO_RUN :: p', ?_, ?_⟩
            · rw [if_neg (by simp), hp']
              simp [MoveSt.mk.injEq, List.append_assoc] <;> omega
            · intro g hg
              rcases List.mem_cons.mp hg with h | h
              · left; exact h
              · rcases List.mem_cons.mp h with h2 | h2
                · right; exact h2
                · exact hmem' g h2
          · refine ⟨[RA_GOTO_RUN, DEC_GOTO_RUN], ?_, ?_⟩
            · simp [List.append_assoc]
            · intro g hg
              rcases List.mem_cons.mp hg with h | h
              · left; exact h
              · simp at h; right; exact h

lemma count_zero_of_polls (x : List Char) (p : List (List Char))
    (hmem : ∀ f ∈ p, f = RA_GOTO_RUN ∨ f = DEC_GOTO_RUN)
    (hra : x ≠ RA_GOTO_RUN) (hdec : x ≠ DEC_GOTO_RUN) : p.count x = 0 := by
  rw [List.count_eq_zero]
  intro hx
  rcases hmem x hx with h | h
  · exact hra h
  · exact hdec h

/-- C5: for a transport that eventually reports the stopped sentinel
(first reply byte `0xFF = 255`) on every status poll, a GOTO run
completes both phases: it submits exactly one fast-phase frame per axis
(mot2 then mot1), polls only the two dedicated motion-complete frames
until both axes report `0xFF`, submits exactly one slow-phase frame per
axis, polls the same way again, and finishes with `POSITIONED`. -/
theorem goto_two_phase_convergence (mot1 mot2 : ℚ) (fb : Nat → List Char → Nat)
    (N fuel : Nat) (hfb : ∀ k frame, N ≤ k → fb k frame = 255)
    (hfuel : N + 1 ≤ fuel) :
    ∃ (mo : MoveOut) (p1 p2 : List (List Char)),
      move mot1 mot2 fb (fun _ => false) fuel = some mo ∧
      mo.frames = GOTO_MOT2 mot2 true :: GOTO_MOT1 mot1 true ::
          (p1 ++ GOTO_MOT2 mot2 false :: GOTO_MOT1 mot1 false :: p2) ∧
      mo.fastOut = .conv ∧ mo.slowOut = .conv ∧ mo.finalStatus = .positioned ∧
      (∀ f ∈ p1 ++ p2, f = RA_GOTO_RUN ∨ f = DEC_GOTO_RUN) ∧
      mo.frames.count (GOTO_MOT2 mot2 true) = 1 ∧
      mo.frames.count (GOTO_MOT1 mot1 true) = 1 ∧
      mo.frames.count (GOTO_MOT2 mot2 false) = 1 ∧
      mo.frames.count (GOTO_MOT1 mot1 false) = 1 := by
  have hfuel1 : 1 ≤ fuel := by omega
  obtain ⟨p1, hp1, hmem1⟩ := pollPhase_conv fb N hfb fuel false false
    ⟨2, [GOTO_MOT2 mot2 true, GOTO_MOT1 mot1 true]⟩ hfuel1 (by simp; omega)
  obtain ⟨p2, hp2, hmem2⟩ := pollPhase_conv fb N hfb fuel false false
    ⟨2 + p1.length + 1 + 1,
     (([GOTO_MOT2 mot2 true, GOTO_MOT1 mot1 true] ++ p1) ++ [GOTO_MOT2 mot2 false]) ++
       [GOTO_MOT1 mot1 false]⟩ hfuel1 (by simp; omega)
  simp only at hp1 hp2
  -- the final frame list
  set m2f := GOTO_MOT2 mot2 true with hm2f
  set m1f := GOTO_MOT1 mot1 true with hm1f
  set m2s := GOTO_MOT2 mot2 false with hm2s
  set m1s := GOTO_MOT1 mot1 false with hm1s
  have hframes : ((([m2f, m1f] ++ p1) ++ [m2s]) ++ [m1s]) ++ p2 =
      m2f :: m1f :: (p1 ++ m2s :: m1s :: p2) := by
    simp [List.append_assoc]
  refine ⟨⟨m2f :: m1f :: (p1 ++ m2s :: m1s :: p2), .conv, .conv, .positioned⟩, p1, p2,
    ?_, rfl, rfl, rfl, rfl, ?_, ?_, ?_, ?_, ?_⟩
  · -- the run equation
    simp only [move]
    rw [show talk (GOTO_MOT1 mot1 true) (talk (GOTO_MOT2 mot2 true) ⟨0, []⟩) =
        (⟨2, [m2f, m1f]⟩ : MoveSt) from rfl]
    rw [hp1]
    simp only []
    rw [show talk (GOTO_MOT1 mot1 false) (talk (GOTO_MOT2 mot2 false)
          ⟨2 + p1.length, [m2f, m1f] ++ p1⟩) =
        (⟨2 + p1.length + 1 + 1,
          (([m2f, m1f] ++ p1) ++ [m2s]) ++ [m1s]⟩ : MoveSt) from rfl]
    rw [hp2]
    simp only [hframes]
  · intro f hf
    rcases List.mem_append.mp hf with h | h
    · exact hmem1 f h
    · exact hmem2 f h
  · -- exactly one mot2 fast frame
    have h0 : (m1f :: (p1 ++ m2s :: m1s :: p2)).count m2f = 0 := by
      rw [List.count_eq_zero]
      intro hx
      rcases List.mem_cons.mp hx with h | h
      · exact GOTO_MOT2_ne_GOTO_MOT1 mot2 mot1 true true h
      rcases List.mem_append.mp h with h | h
      · rcases hmem1 _ h with h' | h'
        · exact GOTO_MOT2_ne_poll mot2 true _ (Or.inl rfl) h'
        · exact GOTO_MOT2_ne_poll mot2 true _ (Or.inr rfl) h'
      rcases List.mem_cons.mp h with h | h
      · exact GOTO_MOT2_fast_ne_slow mot2 mot2 h
      rcases List.mem_cons.mp h with h | h
      · exact GOTO_MOT2_ne_GOTO_MOT1 mot2 mot1 true false h
      rcases hmem2 _ h with h' | h'
      · exact GOTO_MOT2_ne_poll mot2 true _ (Or.inl rfl) h'
      · exact GOTO_MOT2_ne_poll mot2 true _ (Or.inr rfl) h'
    rw [List.count_cons_self, h0]
  · -- exactly one mot1 fast frame
    have h0 : (p1 ++ m2s :: m1s :: p2).count m1f = 0 := by
      rw [List.count_eq_zero]
      intro hx
      rcases List.mem_append.mp hx with h | h
      · rcases hmem1 _ h with h' | h'
        · exact GOTO_MOT1_ne_poll mot1 true _ (Or.inl rfl) h'
        · exact GOTO_MOT1_ne_poll mot1 true _ (Or.inr rfl) h'
      rcases List.mem_cons.mp h with h | h
      · exact (GOTO_MOT2_ne_GOTO_MOT1 mot2 mot1 false true) h.symm
      rcases List.mem_cons.mp h with h | h
      · exact GOTO_MOT1_fast_ne_slow mot1 mot1 h
      rcases hmem2 _ h with h' | h'
      · exact GOTO_MOT1_ne_poll mot1 true _ (Or.inl rfl) h'
      · exact GOTO_MOT1_ne_poll mot1 true _ (Or.inr rfl) h'
    rw [List.count_cons_of_ne (fun h => GOTO_MOT2_ne_GOTO_MOT1 mot2 mot1 true true h.symm),
      List.count_cons_self, h0]
  · -- exactly one mot2 slow frame
    have h0 : p1.count m2s = 0 := count_zero_of_polls _ _ hmem1
      (GOTO_MOT2_ne_poll mot2 false _ (Or.inl rfl)) (GOTO_MOT2_ne_poll mot2 false _ (Or.inr rfl))
    have h1 : (m1s :: p2).count m2s = 0 := by
      rw [List.count_eq_zero]
      intro hx
      rcases List.mem_cons.mp hx with h | h
      · exact GOTO_MOT2_ne_GOTO_MOT1 mot2 mot1 false false h
      rcases hmem2 _ h with h' | h'
      · exact GOTO_MOT2_ne_poll mot2 false _ (Or.inl rfl) h'
      · exact GOTO_MOT2_ne_poll mot2 false _ (Or.inr rfl) h'
    rw [List.count_cons_of_ne (fun h => GOTO_MOT2_fast_ne_slow mot2 mot2 h.symm),
      List.count_cons_of_ne (fun h => GOTO_MOT2_ne_GOTO_MOT1 mot2 mot1 false true h),
      List.count_append, h0, List.count_cons_self, h1]
  · -- exactly one mot1 slow frame
    have h0 : p1.count m1s = 0 := count_zero_of_polls _ _ hmem1
      (GOTO_MOT1_ne_poll mot1 false _ (Or.inl rfl)) (GOTO_MOT1_ne_poll mot1 false _ (Or.inr rfl))
    have h1 : p2.count m1s = 0 := count_zero_of_polls _ _ hmem2
      (GOTO_MOT1_ne_poll mot1 false _ (Or.inl rfl)) (GOTO_MOT1_ne_poll mot1 false _ (Or.inr rfl))
    rw [List.count_cons_of_ne (fun h => GOTO_MOT2_ne_GOTO_MOT1 mot2 mot1 true false h.symm),
      List.count_cons_of_ne (GOTO_MOT1_fast_ne_slow mot1 mot1).symm,
      List.count_append, h0,
      List.count_cons_of_ne (GOTO_MOT2_ne_GOTO_MOT1 mot2 mot1 false false).symm,
      List.count_cons_self, h1]

lemma goto_frames_no_stop (mot1 mot2 : ℚ) :
    ([GOTO_MOT2 mot2 true, GOTO_MOT1 mot1 true, GOTO_MOT2 mot2 false,
      GOTO_MOT1 mot1 false] : List (List Char)).count GOTO_STOP = 0 := by
  rw [List.count_eq_zero]
  intro hx
  rcases List.mem_cons.mp hx with h | h
  · exact GOTO_MOT2_ne_stop mot2 true h.symm
  rcases List.mem_cons.mp h with h | h
  · exact GOTO_MOT1_ne_stop mot1 true h.symm
  rcases List.mem_cons.mp h with h | h
  · exact GOTO_MOT2_ne_stop mot2 false h.symm
  rcases List.mem_cons.mp h with h | h
  · exact GOTO_MOT1_ne_stop mot1 false h.symm
  simp at h

/-- C3 (amended): when the abort flag is up from the first fast-phase
poll check onwards, the fast polling loop exits immediately without a
`SlowSlew`-style convergence — but the slow-phase command frames ARE
still submitted (once per axis), the slow polling loop exits
immediately as well, the run ends with motion status `POSITIONED`
(there is no aborted terminal status in `__move`), and the move itself
issues no stop frame (`GOTO_STOP` is sent only by the separate
`stop_motion` entry point). -/
theorem goto_abort_still_sends_slow (mot1 mot2 : ℚ) (fb : Nat → List Char → Nat)
    (abort : Nat → Bool) (fuel : Nat)
    (habort : ∀ k, 2 ≤ k → abort k = true) (hfuel : 1 ≤ fuel) :
    move mot1 mot2 fb abort fuel =
      some ⟨[GOTO_MOT2 mot2 true, GOTO_MOT1 mot1 true,
             GOTO_MOT2 mot2 false, GOTO_MOT1 mot1 false],
            .aborted, .aborted, .positioned⟩ ∧
    ([GOTO_MOT2 mot2 true, GOTO_MOT1 mot1 true, GOTO_MOT2 mot2 false,
      GOTO_MOT1 mot1 false] : List (List Char)).count GOTO_STOP = 0 :=
  ⟨move_abort_after_fast_frames mot1 mot2 fb abort fuel habort hfuel,
   goto_frames_no_stop mot1 mot2⟩

/-- C3 (witness): the amended statement at concrete inputs — the abort
flag rises just before the first fast poll. -/
theorem goto_abort_still_sends_slow_witness :
    (∀ k, 2 ≤ k → (fun k => decide (2 ≤ k)) k = true) ∧ (1:Nat) ≤ 1 ∧
    (move 90 45 (fun _ _ => 0) (fun k => decide (2 ≤ k)) 1 =
      some ⟨[GOTO_MOT2 45 true, GOTO_MOT1 90 true,
             GOTO_MOT2 45 false, GOTO_MOT1 90 false],
            .aborted, .aborted, .positioned⟩ ∧
     ([GOTO_MOT2 45 true, GOTO_MOT1 90 true, GOTO_MOT2 45 false,
       GOTO_MOT1 90 false] : List (List Char)).count GOTO_STOP = 0) :=
  ⟨fun k hk => by simp [hk], le_refl 1,
   goto_abort_still_sends_slow 90 45 (fun _ _ => 0) (fun k => decide (2 ≤ k)) 1
     (fun k hk => by simp [hk]) (le_refl 1)⟩

/-- C3 (counterexample): aborting during the fast polling phase does
not prevent the slow-phase frames: in the concrete aborted run both
slow frames are in the transaction trace, no stop frame is ever issued
by the move routine, and the final status is `POSITIONED`, not an
aborted terminal state — contradicting "the slow-phase command frames
are never submitted", "exactly one stop-frame transaction issued" and
"ends in the terminal Aborted state". -/
theorem goto_abort_counterexample :
    ∃ mo : MoveOut, move 90 45 (fun _ _ => 0) (fun k => decide (2 ≤ k)) 1 = some mo ∧
      GOTO_MOT2 45 false ∈ mo.frames ∧ GOTO_MOT1 90 false ∈ mo.frames ∧
      mo.frames.count GOTO_STOP = 0 ∧ mo.finalStatus = .positioned := by
  refine ⟨⟨[GOTO_MOT2 45 true, GOTO_MOT1 90 true, GOTO_MOT2 45 false, GOTO_MOT1 90 false],
           .aborted, .aborted, .positioned⟩,
    move_abort_after_fast_frames 90 45 (fun _ _ => 0) (fun k => decide (2 ≤ k)) 1
      (fun k hk => by simp [hk]) (le_refl 1), ?_, ?_, goto_frames_no_stop 90 45, rfl⟩
  · simp
  · simp

/-- C5 (witness): the two-phase convergence at concrete inputs, with a
transport that reports the stopped sentinel from the first poll. -/
theorem goto_two_phase_convergence_witness :
    (∀ k frame, 0 ≤ k → (fun (_ : Nat) (_ : List Char) => 255) k frame = 255) ∧
    (0 + 1 ≤ 1) ∧
    (∃ (mo : MoveOut) (p1 p2 : List (List Char)),
      move 90 45 (fun _ _ => 255) (fun _ => false) 1 = some mo ∧
      mo.frames = GOTO_MOT2 45 true :: GOTO_MOT1 90 true ::
          (p1 ++ GOTO_MOT2 45 false :: GOTO_MOT1 90 false :: p2) ∧
      mo.fastOut = .conv ∧ mo.slowOut = .conv ∧ mo.finalStatus = .positioned ∧
      (∀ f ∈ p1 ++ p2, f = RA_GOTO_RUN ∨ f = DEC_GOTO_RUN) ∧
      mo.frames.count (GOTO_MOT2 45 true) = 1 ∧
      mo.frames.count (GOTO_MOT1 90 true) = 1 ∧
      mo.frames.count (GOTO_MOT2 45 false) = 1 ∧
      mo.frames.count (GOTO_MOT1 90 false) = 1) :=
  ⟨fun _ _ _ => rfl, le_refl 1,
   goto_two_phase_convergence 90 45 (fun _ _ => 255) 0 1 (fun _ _ _ => rfl) (le_refl 1)⟩

/-! ## Claim C9: queue-protocol violations -/

/-- C9 (amended): a queue-protocol violation is NOT surfaced as an
uncaught exception.  Popping an empty queue raises `IndexError` inside
`pyPopHead`, but the bare `except` swallows it — the error branch only
logs and sets the ERROR motion status — and `RS232_Talk` then sets the
event and returns the reply normally; moreover `pop(0)` removes the
head ticket unconditionally, without checking it against the caller's
ticket, so releasing a ticket one does not hold is not even detected. -/
theorem release_swallows_violation (q : List Nat) :
    RS232_Talk_finish q = ((q.tail, q.isEmpty), true) ∧
    (q = [] → (pyPopHead q).isOk = false) := by
  constructor
  · cases q <;> simp [RS232_Talk_finish, releaseSection, pyPopHead]
  · intro h
    subst h
    simp [pyPopHead, Except.isOk, Except.toBool]

/-- C9 (witness): on the empty queue the underlying `pop(0)` faults yet
the call completes normally with the error merely flagged; on `[7, 9]`
the head `7` is removed with no fault regardless of which ticket the
caller holds. -/
theorem release_swallows_violation_witness :
    RS232_Talk_finish [] = (([], true), true) ∧
    (pyPopHead ([] : List Nat)).isOk = false ∧
    RS232_Talk_finish [7, 9] = (([9], false), true) :=
  ⟨(release_swallows_violation []).1, (release_swallows_violation []).2 rfl,
   (release_swallows_violation [7, 9]).1⟩

/-- C9 (counterexample): the claim says a violation faults loudly and
is never continued from; in the code the empty-queue pop fails
(`pyPopHead` is an error) yet `RS232_Talk_finish` still completes with
a normal return (final `true`), only flagging the logged error — and a
release by a caller that does not hold the head ticket simply removes
the head (`releaseSection [7] = ([], false)`) with no fault at all. -/
theorem release_violation_counterexample :
    (pyPopHead ([] : List Nat)).isOk = false ∧
    RS232_Talk_finish [] = (([], true), true) ∧
    releaseSection [7] = ([], false) := by
  refine ⟨rfl, ?_, rfl⟩
  simp [RS232_Talk_finish, releaseSection, pyPopHead]


-- projection append lemmas
lemma enqIds_append (l1 l2 : List QEv) : enqIds (l1 ++ l2) = enqIds l1 ++ enqIds l2 := by
  induction l1 with
  | nil => rfl
  | cons e t ih => cases e <;> simp [enqIds, ih]

lemma writeIds_append (l1 l2 : List QEv) : writeIds (l1 ++ l2) = writeIds l1 ++ writeIds l2 := by
  induction l1 with
  | nil => rfl
  | cons e t ih => cases e <;> simp [writeIds, ih]

lemma readIds_append (l1 l2 : List QEv) : readIds (l1 ++ l2) = readIds l1 ++ readIds l2 := by
  induction l1 with
  | nil => rfl
  | cons e t ih => cases e <;> simp [readIds, ih]

lemma serialOf_append (l1 l2 : List QEv) : serialOf (l1 ++ l2) = serialOf l1 ++ serialOf l2 := by
  induction l1 with
  | nil => rfl
  | cons e t ih => cases e <;> simp [serialOf, ih]

lemma pairSeq_append (l1 l2 : List Nat) : pairSeq (l1 ++ l2) = pairSeq l1 ++ pairSeq l2 := by
  induction l1 with
  | nil => rfl
  | cons i t ih => simp [pairSeq, ih]

lemma wellPaired_pairSeq_tail (l : List Nat) (tail : List QEv)
    (htail : tail = [] ∨ ∃ i, tail = [QEv.write i]) :
    wellPaired (pairSeq l ++ tail) = true := by
  induction l with
  | nil =>
    rcases htail with h | ⟨i, h⟩ <;> subst h <;> rfl
  | cons i t ih =>
    simp only [pairSeq, List.cons_append]
    rw [show wellPaired (QEv.write i :: QEv.read i :: (pairSeq t ++ tail)) =
      (i == i && wellPaired (pairSeq t ++ tail)) from rfl]
    simp [ih]

/-- A trace of complete pairs is well paired. -/
lemma wellPaired_pairSeq (l : List Nat) : wellPaired (pairSeq l) = true := by
  have h := wellPaired_pairSeq_tail l [] (Or.inl rfl)
  simpa using h

-- countP helpers
lemma countP_set_add {α : Type _} (l : List α) (i : Nat) (hi : i < l.length) (a : α)
    (p : α → Bool) :
    (l.set i a).countP p + (if p l[i] then 1 else 0) =
      l.countP p + (if p a then 1 else 0) := by
  induction l generalizing i with
  | nil => simp at hi
  | cons x t ih =>
    cases i with
    | zero =>
      simp only [List.set, List.countP_cons, List.getElem_cons_zero]
      by_cases hx : p x <;> by_cases ha : p a <;> simp [hx, ha] <;> omega
    | succ j =>
      have hj : j < t.length := by simpa using hi
      simp only [List.set, List.countP_cons, List.getElem_cons_succ]
      have := ih j hj
      by_cases hx : p x <;> simp [hx] <;> omega

lemma countP_or_split {α : Type _} (l : List α) (p q r : α → Bool)
    (hpq : ∀ a ∈ l, p a = (q a || r a)) (hdisj : ∀ a ∈ l, ¬(q a = true ∧ r a = true)) :
    l.countP p = l.countP q + l.countP r := by
  induction l with
  | nil => simp
  | cons x t ih =>
    have hx := hpq x (by simp)
    have hdx := hdisj x (by simp)
    have iht := ih (fun a ha => hpq a (by simp [ha])) (fun a ha => hdisj a (by simp [ha]))
    simp only [List.countP_cons, iht, hx]
    by_cases hq : q x <;> by_cases hr : r x <;> simp [hq, hr] at hdx ⊢ <;> omega

lemma filterMap_set_congr {α β : Type _} (f : α → Option β) (l : List α) (i : Nat)
    (a : α) (h : f (l.getD i a) = f a) :
    (l.set i a).filterMap f = l.filterMap f := by
  induction l generalizing i with
  | nil => rfl
  | cons x t ih =>
    cases i with
    | zero =>
      simp only [List.getD_cons_zero] at h
      simp [List.set, List.filterMap_cons, h]
    | succ j =>
      simp only [List.getD_cons_succ] at h
      simp [List.set, List.filterMap_cons, ih j h]

lemma filterMap_set_none_perm {α β : Type _} (f : α → Option β) (l : List α) (i : Nat)
    (hi : i < l.length) (a : α) (h : f l[i] = none) :
    ((l.set i a).filterMap f).Perm ((f a).toList ++ l.filterMap f) := by
  induction l generalizing i with
  | nil => simp at hi
  | cons x t ih =>
    cases i with
    | zero =>
      simp only [List.getElem_cons_zero] at h
      simp only [List.set, List.filterMap_cons, h]
      cases hfa : f a <;> simp [hfa]
    | succ j =>
      have hj : j < t.length := by simpa using hi
      simp only [List.getElem_cons_succ] at h
      have hperm := ih j hj h
      simp only [List.set, List.filterMap_cons]
      cases hfx : f x with
      | none => simpa [hfx] using hperm
      | some b =>
        simp only [hfx]
        refine List.Perm.trans (List.Perm.cons b hperm) ?_
        exact (List.perm_middle).symm

lemma nodup_filterMap_index_ne {α β : Type _} (f : α → Option β) (l : List α)
    (h : (l.filterMap f).Nodup) :
    ∀ i j, (hi : i < l.length) → (hj : j < l.length) → i ≠ j →
      ∀ b c, f l[i] = some b → f l[j] = some c → b ≠ c := by
  induction l with
  | nil => intro i j hi; simp at hi
  | cons x t ih =>
    intro i j hi hj hij b c hb hc
    have hsplit : ∀ (k : Nat) (hk : k < t.length) (d : β), f t[k] = some d →
        d ∈ t.filterMap f := by
      intro k hk d hd
      exact List.mem_filterMap.mpr ⟨t[k], List.getElem_mem hk, hd⟩
    cases i with
    | zero =>
      cases j with
      | zero => omega
      | succ j2 =>
        simp only [List.getElem_cons_zero] at hb
        have hj2 : j2 < t.length := by simpa using hj
        simp only [List.getElem_cons_succ] at hc
        have hcmem : c ∈ t.filterMap f := hsplit j2 hj2 c hc
        rw [List.filterMap_cons, hb] at h
        have := (List.nodup_cons.mp h).1
        intro hbc
        exact this (hbc ▸ hcmem)
    | succ i2 =>
      cases j with
      | zero =>
        simp only [List.getElem_cons_zero] at hc
        have hi2 : i2 < t.length := by simpa using hi
        simp only [List.getElem_cons_succ] at hb
        have hbmem : b ∈ t.filterMap f := hsplit i2 hi2 b hb
        rw [List.filterMap_cons, hc] at h
        have := (List.nodup_cons.mp h).1
        intro hbc
        exact this (hbc ▸ hbmem)
      | succ j2 =>
        have hi2 : i2 < t.length := by simpa using hi
        have hj2 : j2 < t.length := by simpa using hj
        have htnodup : (t.filterMap f).Nodup := by
          rw [List.filterMap_cons] at h
          cases hfx : f x with
          | none => rwa [hfx] at h
          | some b2 => rw [hfx] at h; exact (List.nodup_cons.mp h).2
        exact ih htnodup i2 j2 hi2 hj2 (by omega) b c
          (by simpa using hb) (by simpa using hc)

lemma head?_drop_getElem {α : Type _} (l : List α) (n : Nat) :
    (l.drop n).head? = l[n]? := by
  induction l generalizing n with
  | nil => simp
  | cons x t ih =>
    cases n with
    | zero => simp
    | succ m => simpa using ih m

lemma mem_tail_of_ne_head {α : Type _} (l : List α) (a h : α)
    (hmem : a ∈ l) (hhd : l.head? = some h) (hne : a ≠ h) : a ∈ l.tail := by
  cases l with
  | nil => simp at hmem
  | cons x t =>
    simp only [List.head?_cons, Option.some.injEq] at hhd
    rcases List.mem_cons.mp hmem with h1 | h1
    · exact absurd (h1.trans hhd) hne
    · simpa using h1

-- pointwise program-counter classifications
lemma hasWritten_eq_hasRead (t : QTask) : hasWritten t = hasRead t := by
  rcases t with ⟨pc, id⟩
  cases pc <;> rfl

lemma hasRead_eq_or (t : QTask) : hasRead t = (hasPopped t || isPopping t) := by
  rcases t with ⟨pc, id⟩
  cases pc <;> rfl

lemma hasPopped_isPopping_disj (t : QTask) : ¬(hasPopped t = true ∧ isPopping t = true) := by
  rcases t with ⟨pc, id⟩
  cases pc <;> simp [hasPopped, isPopping]

lemma isEnqueued_of_hasWritten (t : QTask) (h : hasWritten t = true) : isEnqueued t = true := by
  rcases t with ⟨pc, id⟩
  cases pc <;> simp_all [hasWritten, isEnqueued]

lemma hasWritten_of_hasRead (t : QTask) (h : hasRead t = true) : hasWritten t = true := by
  rcases t with ⟨pc, id⟩
  cases pc <;> simp_all [hasWritten, hasRead]

lemma hasRead_of_hasPopped (t : QTask) (h : hasPopped t = true) : hasRead t = true := by
  rcases t with ⟨pc, id⟩
  cases pc <;> simp_all [hasRead, hasPopped]

lemma isEnqueued_of_inRegion (t : QTask) (h : inRegion t = true) : isEnqueued t = true := by
  rcases t with ⟨pc, id⟩
  cases pc <;> simp_all [inRegion, isEnqueued]

lemma isActive_of_inRegion (t : QTask) (h : inRegion t = true) : isActive t = true := by
  rcases t with ⟨pc, id⟩
  cases pc <;> simp_all [inRegion, isActive, isEnqueued, hasPopped]

-- counting consequences
lemma countP_mono_pointwise {α : Type _} (l : List α) (p q : α → Bool)
    (h : ∀ a ∈ l, p a = true → q a = true) : l.countP p ≤ l.countP q := by
  induction l with
  | nil => simp
  | cons x t ih =>
    have iht := ih (fun a ha => h a (by simp [ha]))
    simp only [List.countP_cons]
    by_cases hx : p x
    · have := h x (by simp) hx
      simp [hx, this]
      omega
    · by_cases hq : q x <;> simp [hx, hq] <;> omega

lemma countP_eq_one_of_unique {α : Type _} (l : List α) (p : α → Bool) (i : Nat)
    (hi : i < l.length) (hp : p l[i] = true)
    (huni : ∀ j, (hj : j < l.length) → p l[j] = true → j = i) : l.countP p = 1 := by
  induction l generalizing i with
  | nil => simp at hi
  | cons x t ih =>
    cases i with
    | zero =>
      simp only [List.getElem_cons_zero] at hp
      have ht0 : t.countP p = 0 := by
        rw [List.countP_eq_zero]
        intro a ha
        intro hpa
        obtain ⟨k, hk, hak⟩ := List.mem_iff_getElem.mp ha
        have := huni (k + 1) (by simpa using hk) (by simpa [hak] using hpa)
        omega
      simp [List.countP_cons, hp, ht0]
    | succ i2 =>
      have hi2 : i2 < t.length := by simpa using hi
      simp only [List.getElem_cons_succ] at hp
      have hx : p x = false := by
        by_contra hpx
        have := huni 0 (by simp) (by simpa using Bool.of_not_eq_false hpx)
        omega
      have := ih i2 hi2 hp (fun j hj hpj => by
        have := huni (j + 1) (by simpa using hj) (by simpa using hpj)
        omega)
      simp [List.countP_cons, hx, this]

lemma countP_le_one_of_unique {α : Type _} (l : List α) (p : α → Bool)
    (huni : ∀ i j, (hi : i < l.length) → (hj : j < l.length) →
      p l[i] = true → p l[j] = true → i = j) : l.countP p ≤ 1 := by
  by_cases hex : ∃ i, ∃ hi : i < l.length, p l[i] = true
  · obtain ⟨i, hi, hp⟩ := hex
    rw [countP_eq_one_of_unique l p i hi hp (fun j hj hpj => huni j i hj hi hpj hp)]
  · rw [List.countP_eq_zero.mpr]
    · omega
    · intro a ha hpa
      obtain ⟨k, hk, hak⟩ := List.mem_iff_getElem.mp ha
      exact hex ⟨k, hk, by simpa [hak] using hpa⟩

-- consequences of the invariant
lemma QInv.enqIds_length {n : Nat} {s : QSys} (inv : QInv n s) :
    (enqIds s.trace).length = s.tasks.countP isEnqueued := by
  rw [inv.henq, List.length_map, List.length_range]

lemma QInv.enqIds_nodup {n : Nat} {s : QSys} (inv : QInv n s) (hn : n ≤ 10000) :
    (enqIds s.trace).Nodup := by
  rw [inv.henq]
  refine List.Nodup.map_on ?_ (List.nodup_range _)
  intro x hx y hy hf
  have hx' : x < s.tasks.countP isEnqueued := List.mem_range.mp hx
  have hy' : y < s.tasks.countP isEnqueued := List.mem_range.mp hy
  have hxn : x < 10000 := by have := inv.hEn; omega
  have hyn : y < 10000 := by have := inv.hEn; omega
  omega

lemma QInv.ids_distinct {n : Nat} {s : QSys} (inv : QInv n s) (hn : n ≤ 10000) :
    ∀ i j, (hi : i < s.tasks.length) → (hj : j < s.tasks.length) → i ≠ j →
      isEnqueued s.tasks[i] = true → isEnqueued s.tasks[j] = true →
      s.tasks[i].myId ≠ s.tasks[j].myId := by
  intro i j hi hj hij h1 h2
  have hnodup : (enqueuedIds s.tasks).Nodup :=
    (inv.hids.nodup_iff).mpr (inv.enqIds_nodup hn)
  exact nodup_filterMap_index_ne _ _ hnodup i j hi hj hij _ _
    (by simp [h1]) (by simp [h2])

lemma QInv.region_unique {n : Nat} {s : QSys} (inv : QInv n s) (hn : n ≤ 10000) :
    ∀ i j, (hi : i < s.tasks.length) → (hj : j < s.tasks.length) →
      inRegion s.tasks[i] = true → inRegion s.tasks[j] = true → i = j := by
  intro i j hi hj hri hrj
  by_contra hij
  have h1 := inv.hhead s.tasks[i] (List.getElem_mem hi) hri
  have h2 := inv.hhead s.tasks[j] (List.getElem_mem hj) hrj
  have heq : s.tasks[i].myId = s.tasks[j].myId := by
    rw [h1] at h2
    exact (Option.some.injEq _ _).mp h2
  exact inv.ids_distinct hn i j hi hj hij
    (isEnqueued_of_inRegion _ hri) (isEnqueued_of_inRegion _ hrj) heq

lemma filterMap_set_congr2 {α β : Type _} (f : α → Option β) (l : List α) (i : Nat)
    (hi : i < l.length) (a : α) (h : f l[i] = f a) :
    (l.set i a).filterMap f = l.filterMap f := by
  apply filterMap_set_congr
  rwa [List.getD_eq_getElem l a hi]

lemma countP_set_eq_of_same {α : Type _} (l : List α) (i : Nat) (hi : i < l.length) (a : α)
    (p : α → Bool) (h : p l[i] = p a) : (l.set i a).countP p = l.countP p := by
  have := countP_set_add l i hi a p
  rw [h] at this
  omega

lemma countP_set_succ {α : Type _} (l : List α) (i : Nat) (hi : i < l.length) (a : α)
    (p : α → Bool) (hold : p l[i] = false) (hnew : p a = true) :
    (l.set i a).countP p = l.countP p + 1 := by
  have := countP_set_add l i hi a p
  rw [hold, hnew] at this
  simp at this
  omega

lemma countP_lt_of_getElem_false {α : Type _} (l : List α) (p : α → Bool) (i : Nat)
    (hi : i < l.length) (h : p l[i] = false) : l.countP p < l.length := by
  induction l generalizing i with
  | nil => simp at hi
  | cons x t ih =>
    cases i with
    | zero =>
      simp only [List.getElem_cons_zero] at h
      have : t.countP p ≤ t.length := List.countP_le_length _
      simp [List.countP_cons, h]
      omega
    | succ j =>
      have hj : j < t.length := by simpa using hi
      simp only [List.getElem_cons_succ] at h
      have := ih j hj h
      simp only [List.countP_cons, List.length_cons]
      by_cases hx : p x <;> simp [hx] <;> omega

lemma head?_append_of_head {α : Type _} (l l2 : List α) (a : α) (h : l.head? = some a) :
    (l ++ l2).head? = some a := by
  cases l with
  | nil => simp at h
  | cons x t => simpa using h

lemma head?_of_indexOf_zero (l : List Nat) (a : Nat) (hmem : a ∈ l)
    (hidx : l.indexOf a = 0) : l.head? = some a := by
  cases l with
  | nil => simp at hmem
  | cons x t =>
    by_cases hax : x = a
    · simp [hax]
    · rw [List.indexOf_cons_ne t hax] at hidx
      omega

-- a step that only changes one task's program counter (and possibly the
-- event flag) preserves the invariant, provided the four history
-- classes are unchanged and the head/membership obligations hold for
-- the new program counter
lemma QInv_set_pc {n : Nat} {s : QSys} (inv : QInv n s) (i : Nat) (hi : i < s.tasks.length)
    (newpc : QPC) (b : Bool)
    (hE : isEnqueued ⟨newpc, s.tasks[i].myId⟩ = isEnqueued s.tasks[i])
    (hWc : hasWritten ⟨newpc, s.tasks[i].myId⟩ = hasWritten s.tasks[i])
    (hRc : hasRead ⟨newpc, s.tasks[i].myId⟩ = hasRead s.tasks[i])
    (hPc : hasPopped ⟨newpc, s.tasks[i].myId⟩ = hasPopped s.tasks[i])
    (hreg : inRegion ⟨newpc, s.tasks[i].myId⟩ = true → s.queue.head? = some s.tasks[i].myId)
    (hact : isActive ⟨newpc, s.tasks[i].myId⟩ = true → s.tasks[i].myId ∈ s.queue) :
    QInv n { s with ev := b, tasks := s.tasks.set i ⟨newpc, s.tasks[i].myId⟩ } := by
  have hcE := countP_set_eq_of_same s.tasks i hi ⟨newpc, s.tasks[i].myId⟩ isEnqueued hE.symm
  have hcW := countP_set_eq_of_same s.tasks i hi ⟨newpc, s.tasks[i].myId⟩ hasWritten hWc.symm
  have hcR := countP_set_eq_of_same s.tasks i hi ⟨newpc, s.tasks[i].myId⟩ hasRead hRc.symm
  have hcP := countP_set_eq_of_same s.tasks i hi ⟨newpc, s.tasks[i].myId⟩ hasPopped hPc.symm
  refine ⟨?_, ?_, ?_, ?_, ?_, ?_, ?_, ?_, ?_, ?_, ?_⟩
  · simpa [List.length_set] using inv.hlen
  · simpa [hcE] using inv.henq
  · simpa [hcE] using inv.hEn
  · simpa [hcE] using inv.hident
  · simpa [hcP] using inv.hqueue
  · have hcongr : (s.tasks.set i ⟨newpc, s.tasks[i].myId⟩).filterMap
        (fun t => if isEnqueued t then some t.myId else none) =
        s.tasks.filterMap (fun t => if isEnqueued t then some t.myId else none) := by
      apply filterMap_set_congr2 _ _ _ hi
      simp [hE]
    simpa [enqueuedIds, hcongr] using inv.hids
  · intro t ht hactive
    simp only at ht
    obtain ⟨j, hj, hjt⟩ := List.mem_iff_getElem.mp ht
    have hjlen : j < s.tasks.length := by simpa [List.length_set] using hj
    by_cases hji : j = i
    · subst hji
      rw [List.getElem_set_self] at hjt
      · rw [← hjt] at hactive
        rw [← hjt]
        exact hact hactive
    · rw [List.getElem_set_ne (fun hh => hji hh.symm)] at hjt
      rw [← hjt] at hactive
      rw [← hjt]
      exact inv.hmem _ (List.getElem_mem hjlen) hactive
  · intro t ht hregion
    simp only at ht
    obtain ⟨j, hj, hjt⟩ := List.mem_iff_getElem.mp ht
    have hjlen : j < s.tasks.length := by simpa [List.length_set] using hj
    by_cases hji : j = i
    · subst hji
      rw [List.getElem_set_self] at hjt
      rw [← hjt] at hregion
      rw [← hjt]
      exact hreg hregion
    · rw [List.getElem_set_ne (fun hh => hji hh.symm)] at hjt
      rw [← hjt] at hregion
      rw [← hjt]
      exact inv.hhead _ (List.getElem_mem hjlen) hregion
  · simpa [hcW] using inv.hW
  · simpa [hcR] using inv.hR
  · simpa using inv.hserial

lemma forall_set_split {α : Type _} (l : List α) (i : Nat) (a : α) (P : α → Prop)
    (ha : P a) (hrest : ∀ j, (hj : j < l.length) → j ≠ i → P (l.get ⟨j, hj⟩)) :
    ∀ t ∈ l.set i a, P t := by
  intro t ht
  obtain ⟨j, hj, hjt⟩ := List.mem_iff_getElem.mp ht
  have hjlen : j < l.length := by simpa [List.length_set] using hj
  by_cases hji : j = i
  · subst hji
    rw [List.getElem_set_self] at hjt
    exact hjt ▸ ha
  · rw [List.getElem_set_ne (fun hh => hji hh.symm)] at hjt
    exact hjt ▸ hrest j hjlen hji

lemma inRegion_of_isPopping (t : QTask) (h : isPopping t = true) : inRegion t = true := by
  rcases t with ⟨pc, id⟩
  cases pc <;> simp_all [isPopping, inRegion]

lemma isEnqueued_of_hasPopped (t : QTask) (h : hasPopped t = true) : isEnqueued t = true :=
  isEnqueued_of_hasWritten t (hasWritten_of_hasRead t (hasRead_of_hasPopped t h))

lemma QInv_step_start {n : Nat} {s : QSys} (inv : QInv n s) (i : Nat)
    (hi : i < s.tasks.length) (hpc : s.tasks[i].pc = .start) :
    QInv n { s with
      ident := (s.ident + 1) % 10000,
      queue := s.queue ++ [(s.ident + 1) % 10000],
      trace := s.trace ++ [.enq ((s.ident + 1) % 10000)],
      tasks := s.tasks.set i ⟨.clearing, (s.ident + 1) % 10000⟩ } := by
  set newId := (s.ident + 1) % 10000 with hnewId
  set E := s.tasks.countP isEnqueued with hE
  have holdE : isEnqueued s.tasks[i] = false := by simp [isEnqueued, hpc]
  have holdW : hasWritten s.tasks[i] = false := by simp [hasWritten, hpc]
  have holdR : hasRead s.tasks[i] = false := by simp [hasRead, hpc]
  have holdP : hasPopped s.tasks[i] = false := by simp [hasPopped, hpc]
  have hcE : (s.tasks.set i ⟨.clearing, newId⟩).countP isEnqueued = E + 1 :=
    countP_set_succ s.tasks i hi _ isEnqueued holdE (by simp [isEnqueued])
  have hcW : (s.tasks.set i ⟨.clearing, newId⟩).countP hasWritten = s.tasks.countP hasWritten :=
    countP_set_eq_of_same s.tasks i hi _ hasWritten (by simp [hasWritten, hpc])
  have hcR : (s.tasks.set i ⟨.clearing, newId⟩).countP hasRead = s.tasks.countP hasRead :=
    countP_set_eq_of_same s.tasks i hi _ hasRead (by simp [hasRead, hpc])
  have hcP : (s.tasks.set i ⟨.clearing, newId⟩).countP hasPopped = s.tasks.countP hasPopped :=
    countP_set_eq_of_same s.tasks i hi _ hasPopped (by simp [hasPopped, hpc])
  have hELt : E < n := by
    have := countP_lt_of_getElem_false s.tasks isEnqueued i hi holdE
    rwa [inv.hlen] at this
  have hid : newId = (E + 1) % 10000 := by
    rw [hnewId, inv.hident]
    omega
  have hlenE : (enqIds s.trace).length = E := inv.enqIds_length
  have hPle : s.tasks.countP hasPopped ≤ E :=
    countP_mono_pointwise s.tasks hasPopped isEnqueued
      (fun a _ h => isEnqueued_of_hasPopped a h)
  have hWle : s.tasks.countP hasWritten ≤ E :=
    countP_mono_pointwise s.tasks hasWritten isEnqueued
      (fun a _ h => isEnqueued_of_hasWritten a h)
  have hRle : s.tasks.countP hasRead ≤ E :=
    countP_mono_pointwise s.tasks hasRead isEnqueued
      (fun a _ h => isEnqueued_of_hasWritten a (hasWritten_of_hasRead a h))
  have henq' : enqIds (s.trace ++ [QEv.enq newId]) = enqIds s.trace ++ [newId] := by
    rw [enqIds_append]
    rfl
  refine ⟨?_, ?_, ?_, ?_, ?_, ?_, ?_, ?_, ?_, ?_, ?_⟩
  · simpa [List.length_set] using inv.hlen
  · rw [henq', hcE, List.range_succ, List.map_append, inv.henq, hid]
    simp
  · rw [hcE]
    omega
  · rw [hcE, hid]
  · rw [henq', hcP, List.drop_append_of_le_length (by rw [hlenE]; exact hPle), ← inv.hqueue]
  · rw [henq']
    have h0 : (fun t => if isEnqueued t then some t.myId else none) s.tasks[i] = none := by
      simp [holdE]
    have hperm := filterMap_set_none_perm
      (fun t => if isEnqueued t then some t.myId else none) s.tasks i hi
      ⟨QPC.clearing, newId⟩ h0
    simp only [isEnqueued, if_pos] at hperm
    refine List.Perm.trans ?_ (List.perm_append_singleton newId (enqIds s.trace)).symm
    refine List.Perm.trans hperm ?_
    simpa [enqueuedIds] using List.Perm.cons newId inv.hids
  · refine forall_set_split s.tasks i _ _ ?_ ?_
    · intro _
      simp
    · intro j hj hji hact
      exact List.mem_append_left _ (inv.hmem _ (List.getElem_mem hj) hact)
  · refine forall_set_split s.tasks i _ _ ?_ ?_
    · intro hreg
      simp [inRegion] at hreg
    · intro j hj hji hreg
      exact head?_append_of_head _ _ _ (inv.hhead _ (List.getElem_mem hj) hreg)
  · rw [henq', hcW]
    have : writeIds (s.trace ++ [QEv.enq newId]) = writeIds s.trace := by
      simp [writeIds_append, writeIds]
    rw [this, List.take_append_of_le_length (by rw [hlenE]; exact hWle), inv.hW]
  · rw [henq', hcR]
    have : readIds (s.trace ++ [QEv.enq newId]) = readIds s.trace := by
      simp [readIds_append, readIds]
    rw [this, List.take_append_of_le_length (by rw [hlenE]; exact hRle), inv.hR]
  · have h1 : serialOf (s.trace ++ [QEv.enq newId]) = serialOf s.trace := by
      simp [serialOf_append, serialOf]
    have h2 : writeIds (s.trace ++ [QEv.enq newId]) = writeIds s.trace := by
      simp [writeIds_append, writeIds]
    have h3 : readIds (s.trace ++ [QEv.enq newId]) = readIds s.trace := by
      simp [readIds_append, readIds]
    simp only [h1, h2, h3]
    exact inv.hserial

lemma countP_congr_pointwise {α : Type _} (l : List α) (p q : α → Bool)
    (h : ∀ a ∈ l, p a = q a) : l.countP p = l.countP q := by
  induction l with
  | nil => rfl
  | cons x t ih =>
    simp only [List.countP_cons, h x (by simp), ih (fun a ha => h a (by simp [ha]))]

lemma QInv_step_writing {n : Nat} {s : QSys} (hn : n ≤ 10000) (inv : QInv n s) (i : Nat)
    (hi : i < s.tasks.length) (hpc : s.tasks[i].pc = .writing) :
    QInv n { s with
      trace := s.trace ++ [.write s.tasks[i].myId, .read s.tasks[i].myId],
      tasks := s.tasks.set i ⟨.popping, s.tasks[i].myId⟩ } := by
  set m := s.tasks[i].myId with hm
  have hregI : inRegion s.tasks[i] = true := by simp [inRegion, hpc]
  have hcPop0 : s.tasks.countP isPopping = 0 := by
    rw [List.countP_eq_zero]
    intro a ha hra
    obtain ⟨j, hj, haj⟩ := List.mem_iff_getElem.mp ha
    have hrj : isPopping s.tasks[j] = true := by rw [haj]; exact hra
    have hji := inv.region_unique hn j i hj hi (inRegion_of_isPopping _ hrj) hregI
    subst hji
    simp [isPopping, hpc] at hrj
  have hRP : s.tasks.countP hasRead = s.tasks.countP hasPopped := by
    rw [countP_or_split s.tasks hasRead hasPopped isPopping
      (fun a _ => hasRead_eq_or a) (fun a _ => hasPopped_isPopping_disj a), hcPop0]
    omega
  have hWcnt : s.tasks.countP hasWritten = s.tasks.countP hasRead :=
    countP_congr_pointwise s.tasks hasWritten hasRead (fun a _ => hasWritten_eq_hasRead a)
  have hhd : s.queue.head? = some m := inv.hhead _ (List.getElem_mem hi) hregI
  have hgetP : (enqIds s.trace)[s.tasks.countP hasPopped]? = some m := by
    rw [← head?_drop_getElem, ← inv.hqueue]
    exact hhd
  have hgetR : (enqIds s.trace)[s.tasks.countP hasRead]? = some m := by
    rw [hRP]
    exact hgetP
  have hgetW : (enqIds s.trace)[s.tasks.countP hasWritten]? = some m := by
    rw [hWcnt]
    exact hgetR
  have hcE : (s.tasks.set i ⟨.popping, m⟩).countP isEnqueued = s.tasks.countP isEnqueued :=
    countP_set_eq_of_same s.tasks i hi _ isEnqueued (by simp [isEnqueued, hpc])
  have hcW : (s.tasks.set i ⟨.popping, m⟩).countP hasWritten = s.tasks.countP hasWritten + 1 :=
    countP_set_succ s.tasks i hi _ hasWritten (by simp [hasWritten, hpc])
      (by simp [hasWritten])
  have hcR : (s.tasks.set i ⟨.popping, m⟩).countP hasRead = s.tasks.countP hasRead + 1 :=
    countP_set_succ s.tasks i hi _ hasRead (by simp [hasRead, hpc]) (by simp [hasRead])
  have hcP : (s.tasks.set i ⟨.popping, m⟩).countP hasPopped = s.tasks.countP hasPopped :=
    countP_set_eq_of_same s.tasks i hi _ hasPopped (by simp [hasPopped, hpc])
  have henqA : enqIds (s.trace ++ [QEv.write m, QEv.read m]) = enqIds s.trace := by
    simp [enqIds_append, enqIds]
  have hwA : writeIds (s.trace ++ [QEv.write m, QEv.read m]) = writeIds s.trace ++ [m] := by
    simp [writeIds_append, writeIds]
  have hrA : readIds (s.trace ++ [QEv.write m, QEv.read m]) = readIds s.trace ++ [m] := by
    simp [readIds_append, readIds]
  have hsA : serialOf (s.trace ++ [QEv.write m, QEv.read m]) =
      serialOf s.trace ++ [QEv.write m, QEv.read m] := by
    simp [serialOf_append, serialOf]
  refine ⟨?_, ?_, ?_, ?_, ?_, ?_, ?_, ?_, ?_, ?_, ?_⟩
  · simpa [List.length_set] using inv.hlen
  · rw [henqA, hcE]
    exact inv.henq
  · rw [hcE]
    exact inv.hEn
  · rw [hcE]
    exact inv.hident
  · rw [henqA, hcP]
    exact inv.hqueue
  · rw [henqA]
    have hcongr : (s.tasks.set i ⟨QPC.popping, m⟩).filterMap
        (fun t => if isEnqueued t then some t.myId else none) =
        s.tasks.filterMap (fun t => if isEnqueued t then some t.myId else none) :=
      filterMap_set_congr2 _ s.tasks i hi _ (by simp [isEnqueued, hpc])
    simpa [enqueuedIds, hcongr] using inv.hids
  · refine forall_set_split s.tasks i _ _ ?_ ?_
    · intro _
      have hia : isActive s.tasks[i] = true := by simp [isActive, isEnqueued, hasPopped, hpc]
      exact inv.hmem s.tasks[i] (List.getElem_mem hi) hia
    · intro j hj hji hact
      exact inv.hmem _ (List.getElem_mem hj) hact
  · refine forall_set_split s.tasks i _ _ ?_ ?_
    · intro _
      exact hhd
    · intro j hj hji hreg
      exact inv.hhead _ (List.getElem_mem hj) hreg
  · rw [henqA, hwA, hcW, List.take_succ, hgetW, inv.hW]
    simp
  · rw [henqA, hrA, hcR, List.take_succ, hgetR, inv.hR]
    simp
  · rw [hsA, hrA, inv.hserial, pairSeq_append]
    rfl

lemma QInv_step_popping {n : Nat} {s : QSys} (hn : n ≤ 10000) (inv : QInv n s) (i : Nat)
    (hi : i < s.tasks.length) (hpc : s.tasks[i].pc = .popping) :
    QInv n { s with
      queue := s.queue.tail,
      tasks := s.tasks.set i ⟨.setting, s.tasks[i].myId⟩ } := by
  set m := s.tasks[i].myId with hm
  have hregI : inRegion s.tasks[i] = true := by simp [inRegion, hpc]
  have hhd : s.queue.head? = some m := inv.hhead _ (List.getElem_mem hi) hregI
  have hcE : (s.tasks.set i ⟨.setting, m⟩).countP isEnqueued = s.tasks.countP isEnqueued :=
    countP_set_eq_of_same s.tasks i hi _ isEnqueued (by simp [isEnqueued, hpc])
  have hcW : (s.tasks.set i ⟨.setting, m⟩).countP hasWritten = s.tasks.countP hasWritten :=
    countP_set_eq_of_same s.tasks i hi _ hasWritten (by simp [hasWritten, hpc])
  have hcR : (s.tasks.set i ⟨.setting, m⟩).countP hasRead = s.tasks.countP hasRead :=
    countP_set_eq_of_same s.tasks i hi _ hasRead (by simp [hasRead, hpc])
  have hcP : (s.tasks.set i ⟨.setting, m⟩).countP hasPopped = s.tasks.countP hasPopped + 1 :=
    countP_set_succ s.tasks i hi _ hasPopped (by simp [hasPopped, hpc]) (by simp [hasPopped])
  refine ⟨?_, ?_, ?_, ?_, ?_, ?_, ?_, ?_, ?_, ?_, ?_⟩
  · simpa [List.length_set] using inv.hlen
  · rw [hcE]
    exact inv.henq
  · rw [hcE]
    exact inv.hEn
  · rw [hcE]
    exact inv.hident
  · rw [hcP, ← List.tail_drop, ← inv.hqueue]
  · have hcongr : (s.tasks.set i ⟨QPC.setting, m⟩).filterMap
        (fun t => if isEnqueued t then some t.myId else none) =
        s.tasks.filterMap (fun t => if isEnqueued t then some t.myId else none) :=
      filterMap_set_congr2 _ s.tasks i hi _ (by simp [isEnqueued, hpc])
    simpa [enqueuedIds, hcongr] using inv.hids
  · refine forall_set_split s.tasks i _ _ ?_ ?_
    · intro hact
      simp [isActive, hasPopped] at hact
    · intro j hj hji hact
      have hmemj : (s.tasks.get ⟨j, hj⟩).myId ∈ s.queue :=
        inv.hmem _ (List.getElem_mem hj) hact
      have henqj : isEnqueued (s.tasks.get ⟨j, hj⟩) = true := by
        simp [isActive] at hact
        exact hact.1
      have henqi : isEnqueued s.tasks[i] = true := by simp [isEnqueued, hpc]
      have hne : (s.tasks.get ⟨j, hj⟩).myId ≠ m :=
        inv.ids_distinct hn j i hj hi hji henqj henqi
      exact mem_tail_of_ne_head s.queue _ m hmemj hhd hne
  · refine forall_set_split s.tasks i _ _ ?_ ?_
    · intro hreg
      simp [inRegion] at hreg
    · intro j hj hji hreg
      exact absurd (inv.region_unique hn j i hj hi hreg hregI) hji
  · rw [hcW]
    exact inv.hW
  · rw [hcR]
    exact inv.hR
  · exact inv.hserial

lemma QInv_step {n : Nat} {s : QSys} (hn : n ≤ 10000) (inv : QInv n s) (i : Nat) :
    QInv n (stepTask s i) := by
  by_cases hi : i < s.tasks.length
  · cases hpc : s.tasks[i].pc with
    | start =>
      have h := QInv_step_start inv i hi hpc
      simpa [stepTask, hi, hpc] using h
    | clearing =>
      have h := QInv_set_pc inv i hi .checking false
        (by simp [isEnqueued, hpc]) (by simp [hasWritten, hpc]) (by simp [hasRead, hpc])
        (by simp [hasPopped, hpc]) (by intro hr; simp [inRegion] at hr)
        (fun _ => inv.hmem _ (List.getElem_mem hi)
          (by simp [isActive, isEnqueued, hasPopped, hpc]))
      simpa [stepTask, hi, hpc] using h
    | checking =>
      by_cases hq : s.queue.indexOf s.tasks[i].myId = 0
      · have hmemq : s.tasks[i].myId ∈ s.queue := inv.hmem _ (List.getElem_mem hi)
          (by simp [isActive, isEnqueued, hasPopped, hpc])
        have h := QInv_set_pc inv i hi .writing s.ev
          (by simp [isEnqueued, hpc]) (by simp [hasWritten, hpc]) (by simp [hasRead, hpc])
          (by simp [hasPopped, hpc])
          (fun _ => head?_of_indexOf_zero _ _ hmemq hq)
          (fun _ => hmemq)
        simpa [stepTask, hi, hpc, hq] using h
      · have h := QInv_set_pc inv i hi .waiting s.ev
          (by simp [isEnqueued, hpc]) (by simp [hasWritten, hpc]) (by simp [hasRead, hpc])
          (by simp [hasPopped, hpc]) (by intro hr; simp [inRegion] at hr)
          (fun _ => inv.hmem _ (List.getElem_mem hi)
            (by simp [isActive, isEnqueued, hasPopped, hpc]))
        simpa [stepTask, hi, hpc, hq] using h
    | waiting =>
      by_cases hev : s.ev = true
      · have h := QInv_set_pc inv i hi .sleeping s.ev
          (by simp [isEnqueued, hpc]) (by simp [hasWritten, hpc]) (by simp [hasRead, hpc])
          (by simp [hasPopped, hpc]) (by intro hr; simp [inRegion] at hr)
          (fun _ => inv.hmem _ (List.getElem_mem hi)
            (by simp [isActive, isEnqueued, hasPopped, hpc]))
        simpa [stepTask, hi, hpc, hev] using h
      · simpa [stepTask, hi, hpc, hev] using inv
    | sleeping =>
      have h := QInv_set_pc inv i hi .checking false
        (by simp [isEnqueued, hpc]) (by simp [hasWritten, hpc]) (by simp [hasRead, hpc])
        (by simp [hasPopped, hpc]) (by intro hr; simp [inRegion] at hr)
        (fun _ => inv.hmem _ (List.getElem_mem hi)
          (by simp [isActive, isEnqueued, hasPopped, hpc]))
      simpa [stepTask, hi, hpc] using h
    | writing =>
      have h := QInv_step_writing hn inv i hi hpc
      simpa [stepTask, hi, hpc] using h
    | popping =>
      have h := QInv_step_popping hn inv i hi hpc
      simpa [stepTask, hi, hpc] using h
    | setting =>
      have h := QInv_set_pc inv i hi .done true
        (by simp [isEnqueued, hpc]) (by simp [hasWritten, hpc]) (by simp [hasRead, hpc])
        (by simp [hasPopped, hpc]) (by intro hr; simp [inRegion] at hr)
        (by intro hact; simp [isActive, isEnqueued, hasPopped] at hact)
      simpa [stepTask, hi, hpc] using h
    | done =>
      simpa [stepTask, hi, hpc] using inv
  · simpa [stepTask, hi] using inv

lemma QInv_init (n : Nat) : QInv n (initSys n) := by
  have hall : ∀ t ∈ (initSys n).tasks, t = ⟨QPC.start, 0⟩ := by
    intro t ht
    exact List.eq_of_mem_replicate ht
  have hc0 : ∀ p : QTask → Bool, p ⟨QPC.start, 0⟩ = false →
      (initSys n).tasks.countP p = 0 := by
    intro p hp
    rw [List.countP_eq_zero]
    intro a ha
    rw [hall a ha, hp]
    simp
  have hcE := hc0 isEnqueued (by simp [isEnqueued])
  have hcW := hc0 hasWritten (by simp [hasWritten])
  have hcR := hc0 hasRead (by simp [hasRead])
  have hcP := hc0 hasPopped (by simp [hasPopped])
  refine ⟨?_, ?_, ?_, ?_, ?_, ?_, ?_, ?_, ?_, ?_, ?_⟩
  · simp [initSys]
  · rw [hcE]
    rfl
  · simp [hcE]
  · rw [hcE]
    rfl
  · rw [hcP]
    rfl
  · have : enqueuedIds (initSys n).tasks = [] := by
      rw [enqueuedIds, List.filterMap_eq_nil_iff]
      intro a ha
      rw [hall a ha]
      simp [isEnqueued]
    rw [this]
    exact List.Perm.refl _
  · intro t ht hact
    rw [hall t ht] at hact
    simp [isActive, isEnqueued] at hact
  · intro t ht hreg
    rw [hall t ht] at hreg
    simp [inRegion] at hreg
  · rw [hcW]
    rfl
  · rw [hcR]
    rfl
  · rfl

lemma QInv_foldl {n : Nat} (hn : n ≤ 10000) (sched : List Nat) :
    ∀ (s : QSys), QInv n s → QInv n (sched.foldl stepTask s) := by
  induction sched with
  | nil => intro s inv; exact inv
  | cons i r ih => intro s inv; exact ih _ (QInv_step hn inv i)

/-- **C4.** For at most 10000 concurrent callers of the asyncio `RS232_Talk`
(ticket modulus 10000; `ser.write` and `ser.readline` are one atomic block, as
the source has no `await` between them), under every interleaving the serial
trace consists of complete write+read pairs on a single ticket each — no two
transactions' write+read cycles interleave — and both the writes and the reads
happen in strict enqueue (ticket) order. -/
theorem rs232_strict_serialization (n : Nat) (hn : n ≤ 10000) (sched : List Nat) :
    wellPaired (serialOf (runSched (initSys n) sched).trace) = true ∧
    writeIds (runSched (initSys n) sched).trace =
      (enqIds (runSched (initSys n) sched).trace).take
        (writeIds (runSched (initSys n) sched).trace).length ∧
    readIds (runSched (initSys n) sched).trace =
      (enqIds (runSched (initSys n) sched).trace).take
        (readIds (runSched (initSys n) sched).trace).length := by
  have inv : QInv n (runSched (initSys n) sched) :=
    QInv_foldl hn sched (initSys n) (QInv_init n)
  set s := runSched (initSys n) sched with hs
  have hlenW : (writeIds s.trace).length =
      min (s.tasks.countP hasWritten) (enqIds s.trace).length := by
    rw [inv.hW, List.length_take]
  have hlenR : (readIds s.trace).length =
      min (s.tasks.countP hasRead) (enqIds s.trace).length := by
    rw [inv.hR, List.length_take]
  have hwp : wellPaired (serialOf s.trace) = true := by
    rw [inv.hserial]
    exact wellPaired_pairSeq _
  refine ⟨hwp, ?_, ?_⟩
  · rw [hlenW]
    conv_lhs => rw [inv.hW]
    rw [List.take_eq_take]
    omega
  · rw [hlenR]
    conv_lhs => rw [inv.hR]
    rw [List.take_eq_take]
    omega

theorem rs232_strict_serialization_witness :
    2 ≤ 10000 ∧
    (wellPaired (serialOf (runSched (initSys 2)
        [0, 1, 0, 1, 0, 1, 1, 0, 0, 0, 0, 1, 1, 1, 1, 1, 1]).trace) = true ∧
    writeIds (runSched (initSys 2) [0, 1, 0, 1, 0, 1, 1, 0, 0, 0, 0, 1, 1, 1, 1, 1, 1]).trace =
      (enqIds (runSched (initSys 2) [0, 1, 0, 1, 0, 1, 1, 0, 0, 0, 0, 1, 1, 1, 1, 1, 1]).trace).take
        (writeIds (runSched (initSys 2)
          [0, 1, 0, 1, 0, 1, 1, 0, 0, 0, 0, 1, 1, 1, 1, 1, 1]).trace).length ∧
    readIds (runSched (initSys 2) [0, 1, 0, 1, 0, 1, 1, 0, 0, 0, 0, 1, 1, 1, 1, 1, 1]).trace =
      (enqIds (runSched (initSys 2) [0, 1, 0, 1, 0, 1, 1, 0, 0, 0, 0, 1, 1, 1, 1, 1, 1]).trace).take
        (readIds (runSched (initSys 2)
          [0, 1, 0, 1, 0, 1, 1, 0, 0, 0, 0, 1, 1, 1, 1, 1, 1]).trace).length) :=
  ⟨by decide, rs232_strict_serialization 2 (by decide)
    [0, 1, 0, 1, 0, 1, 1, 0, 0, 0, 0, 1, 1, 1, 1, 1, 1]⟩

lemma enqIds_map_enq (l : List Nat) (f : Nat → Nat) :
    enqIds (l.map (fun j => QEv.enq (f j))) = l.map f := by
  induction l with
  | nil => rfl
  | cons x t ih => simp [enqIds, ih]

lemma readIds_map_enq (l : List Nat) (f : Nat → Nat) :
    readIds (l.map (fun j => QEv.enq (f j))) = [] := by
  induction l with
  | nil => rfl
  | cons x t ih => simpa [readIds] using ih

/-- Running the three consecutive steps of a fresh task — the enqueue
block, `event.clear()` and the head check — in one go (the source runs
them with no suspension point in between): the ticket is enqueued and
the task ends up either at the serial transaction (head check passed)
or parked in `event.wait()`. -/
lemma stepTriple_start (s1 : QSys) (i : Nat) (hb : i < s1.tasks.length)
    (hpc : s1.tasks[i].pc = QPC.start) :
    ∃ pc', stepTask (stepTask (stepTask s1 i) i) i = { s1 with
      ident := (s1.ident + 1) % 10000,
      queue := s1.queue ++ [(s1.ident + 1) % 10000],
      ev := false,
      trace := s1.trace ++ [QEv.enq ((s1.ident + 1) % 10000)],
      tasks := s1.tasks.set i ⟨pc', (s1.ident + 1) % 10000⟩ } := by
  have hstep1 : stepTask s1 i = { s1 with
      ident := (s1.ident + 1) % 10000,
      queue := s1.queue ++ [(s1.ident + 1) % 10000],
      trace := s1.trace ++ [QEv.enq ((s1.ident + 1) % 10000)],
      tasks := s1.tasks.set i ⟨QPC.clearing, (s1.ident + 1) % 10000⟩ } := by
    unfold stepTask
    rw [dif_pos hb]
    simp only [hpc]
  set s2 : QSys := { s1 with
      ident := (s1.ident + 1) % 10000,
      queue := s1.queue ++ [(s1.ident + 1) % 10000],
      trace := s1.trace ++ [QEv.enq ((s1.ident + 1) % 10000)],
      tasks := s1.tasks.set i ⟨QPC.clearing, (s1.ident + 1) % 10000⟩ } with hs2
  have hb2 : i < s2.tasks.length := by
    rw [hs2]
    simpa [List.length_set] using hb
  have hg2 : s2.tasks[i] = ⟨QPC.clearing, (s1.ident + 1) % 10000⟩ := by
    simp [hs2]
  have hstep2 : stepTask s2 i = { s2 with
      ev := false,
      tasks := s2.tasks.set i ⟨QPC.checking, (s1.ident + 1) % 10000⟩ } := by
    unfold stepTask
    rw [dif_pos hb2]
    simp only [hg2]
  set s3 : QSys := { s2 with
      ev := false,
      tasks := s2.tasks.set i ⟨QPC.checking, (s1.ident + 1) % 10000⟩ } with hs3
  have hb3 : i < s3.tasks.length := by
    rw [hs3]
    simpa [List.length_set] using hb2
  have hg3 : s3.tasks[i] = ⟨QPC.checking, (s1.ident + 1) % 10000⟩ := by
    simp [hs3]
  by_cases hc : s3.queue.indexOf ((s1.ident + 1) % 10000) = 0
  · refine ⟨QPC.writing, ?_⟩
    rw [hstep1, hstep2]
    have hstep3 : stepTask s3 i = { s3 with
        tasks := s3.tasks.set i ⟨QPC.writing, (s1.ident + 1) % 10000⟩ } := by
      unfold stepTask
      rw [dif_pos hb3]
      simp only [hg3]
      rw [if_pos hc]
    rw [hstep3, hs3, hs2]
    simp [List.set_set]
  · refine ⟨QPC.waiting, ?_⟩
    rw [hstep1, hstep2]
    have hstep3 : stepTask s3 i = { s3 with
        tasks := s3.tasks.set i ⟨QPC.waiting, (s1.ident + 1) % 10000⟩ } := by
      unfold stepTask
      rw [dif_pos hb3]
      simp only [hg3]
      rw [if_neg hc]
    rw [hstep3, hs3, hs2]
    simp [List.set_set]

/-- Running each of `k` fresh tasks for its full initial synchronous
block (three model steps: enqueue, clear, failed-or-passed head check):
the identity counter advances by `k` modulo 10000, the tickets
`ident+1, …, ident+k` (mod 10000) are appended to the queue and the
trace (as enqueue events only), and every task outside the block is
untouched. -/
lemma runStartTriples (i0 : Nat) (s : QSys) (hid : s.ident < 10000) :
    ∀ k : Nat,
    (∀ j, j < k → ∃ h : i0 + j < s.tasks.length, s.tasks[i0 + j].pc = QPC.start) →
    (runSched s ((List.range k).flatMap (fun j => [i0 + j, i0 + j, i0 + j]))).ident =
      (s.ident + k) % 10000 ∧
    (runSched s ((List.range k).flatMap (fun j => [i0 + j, i0 + j, i0 + j]))).queue =
      s.queue ++ (List.range k).map (fun j => (s.ident + 1 + j) % 10000) ∧
    (runSched s ((List.range k).flatMap (fun j => [i0 + j, i0 + j, i0 + j]))).trace =
      s.trace ++ (List.range k).map (fun j => QEv.enq ((s.ident + 1 + j) % 10000)) ∧
    (runSched s ((List.range k).flatMap (fun j => [i0 + j, i0 + j, i0 + j]))).tasks.length =
      s.tasks.length ∧
    (∀ j, i0 + k ≤ j →
      (runSched s ((List.range k).flatMap (fun j => [i0 + j, i0 + j, i0 + j]))).tasks[j]? =
        s.tasks[j]?) := by
  intro k
  induction k with
  | zero =>
    intro _
    refine ⟨?_, by simp [runSched], by simp [runSched], rfl, fun j _ => rfl⟩
    simpa [runSched] using (Nat.mod_eq_of_lt hid).symm
  | succ k ih =>
    intro hstart
    obtain ⟨hident1, hqueue1, htrace1, hlen1, hframe1⟩ := ih (fun j hj => hstart j (by omega))
    obtain ⟨hik, hpck⟩ := hstart k (by omega)
    set s1 := runSched s ((List.range k).flatMap (fun j => [i0 + j, i0 + j, i0 + j])) with hs1
    have hb1 : i0 + k < s1.tasks.length := by
      rw [hlen1]
      exact hik
    have hg1 : s1.tasks[i0 + k] = s.tasks[i0 + k] := by
      have h := hframe1 (i0 + k) (le_refl _)
      rw [List.getElem?_eq_getElem hb1, List.getElem?_eq_getElem hik] at h
      simpa using h
    have hpc1 : s1.tasks[i0 + k].pc = QPC.start := by
      rw [hg1]
      exact hpck
    obtain ⟨pc', htriple⟩ := stepTriple_start s1 (i0 + k) hb1 hpc1
    have hunfold : (List.range (k + 1)).flatMap (fun j => [i0 + j, i0 + j, i0 + j]) =
        (List.range k).flatMap (fun j => [i0 + j, i0 + j, i0 + j]) ++
          [i0 + k, i0 + k, i0 + k] := by
      rw [List.range_succ, List.flatMap_append]
      simp
    have hrunEq : runSched s ((List.range (k + 1)).flatMap (fun j => [i0 + j, i0 + j, i0 + j])) =
        stepTask (stepTask (stepTask s1 (i0 + k)) (i0 + k)) (i0 + k) := by
      rw [hunfold, hs1]
      simp only [runSched]
      rw [List.foldl_append]
      rfl
    rw [hrunEq, htriple]
    refine ⟨?_, ?_, ?_, ?_, ?_⟩
    · show (s1.ident + 1) % 10000 = (s.ident + (k + 1)) % 10000
      rw [hident1, Nat.mod_add_mod, Nat.add_assoc]
    · show s1.queue ++ [(s1.ident + 1) % 10000] =
        s.queue ++ (List.range (k + 1)).map (fun j => (s.ident + 1 + j) % 10000)
      rw [hqueue1, hident1, List.range_succ, List.map_append, List.append_assoc]
      have hmod : ((s.ident + k) % 10000 + 1) % 10000 = (s.ident + 1 + k) % 10000 := by
        omega
      rw [hmod]
      rfl
    · show s1.trace ++ [QEv.enq ((s1.ident + 1) % 10000)] =
        s.trace ++ (List.range (k + 1)).map (fun j => QEv.enq ((s.ident + 1 + j) % 10000))
      rw [htrace1, hident1, List.range_succ, List.map_append, List.append_assoc]
      have hmod : ((s.ident + k) % 10000 + 1) % 10000 = (s.ident + 1 + k) % 10000 := by
        omega
      rw [hmod]
      rfl
    · show (s1.tasks.set (i0 + k) ⟨pc', (s1.ident + 1) % 10000⟩).length = s.tasks.length
      rw [List.length_set, hlen1]
    · intro j hj
      show (s1.tasks.set (i0 + k) ⟨pc', (s1.ident + 1) % 10000⟩)[j]? = s.tasks[j]?
      rw [List.getElem?_set_ne (by omega)]
      exact hframe1 j (by omega)

/-- The first caller's full synchronous run up to the serial
transaction: enqueue ticket 1, clear the event, pass the head check
(it is alone in the queue) and perform the atomic write+read; it is
then parked at the `await` that re-acquires the lock for the pop. -/
lemma run4 (n : Nat) : runSched (initSys (n + 1)) [0, 0, 0, 0] =
    ⟨1, [1], false, [.enq 1, .write 1, .read 1],
      ⟨QPC.popping, 1⟩ :: List.replicate n ⟨QPC.start, 0⟩⟩ := by
  simp [runSched, initSys, stepTask, List.replicate_succ]

/-- **C4 counterexample.** With 10001 concurrent callers the `identity`
counter wraps at its modulus 10000 and hands the 10001-st caller the
ticket 1 still held by the first caller.  The schedule used parks tasks
only at `await` expressions of the source: the first caller performs
its whole enqueue/check/write+read block and is parked at the
lock-acquiring `await` before the pop; each of the next 9999 callers
runs its enqueue block and head check and parks in `event.wait()`; the
10001-st caller then enqueues the duplicated ticket 1, finds it at the
head of the queue (`list.index` returns the first occurrence) and
performs its serial transaction at once.  Its write+read pair does not
split any other pair — the trace is still well paired — but service
order is broken: the reads are 1, 1 while tickets 2, …, 9999, 0 are
still waiting, so transactions do not complete in enqueue order. -/
theorem rs232_wrap_counterexample :
    readIds (runSched (initSys 10001)
        ([0, 0, 0, 0] ++ (List.range 9999).flatMap (fun j => [1 + j, 1 + j, 1 + j]) ++
          [10000, 10000, 10000, 10000])).trace ≠
      (enqIds (runSched (initSys 10001)
        ([0, 0, 0, 0] ++ (List.range 9999).flatMap (fun j => [1 + j, 1 + j, 1 + j]) ++
          [10000, 10000, 10000, 10000])).trace).take
        (readIds (runSched (initSys 10001)
          ([0, 0, 0, 0] ++ (List.range 9999).flatMap (fun j => [1 + j, 1 + j, 1 + j]) ++
            [10000, 10000, 10000, 10000])).trace).length := by
  have hrw : runSched (initSys 10001)
      ([0, 0, 0, 0] ++ (List.range 9999).flatMap (fun j => [1 + j, 1 + j, 1 + j]) ++
        [10000, 10000, 10000, 10000]) =
      runSched (runSched (runSched (initSys 10001) [0, 0, 0, 0])
        ((List.range 9999).flatMap (fun j => [1 + j, 1 + j, 1 + j])))
        [10000, 10000, 10000, 10000] := by
    simp only [runSched, List.foldl_append]
  have h4 : runSched (initSys 10001) [0, 0, 0, 0] =
      ⟨1, [1], false, [QEv.enq 1, QEv.write 1, QEv.read 1],
        ⟨QPC.popping, 1⟩ :: List.replicate 10000 ⟨QPC.start, 0⟩⟩ := run4 10000
  rw [hrw, h4]
  set s4 : QSys := ⟨1, [1], false, [QEv.enq 1, QEv.write 1, QEv.read 1],
    ⟨QPC.popping, 1⟩ :: List.replicate 10000 ⟨QPC.start, 0⟩⟩ with hs4
  have hlen4 : s4.tasks.length = 10001 := by
    rw [hs4]
    show ((⟨QPC.popping, 1⟩ : QTask) :: List.replicate 10000 ⟨QPC.start, 0⟩).length = 10001
    rw [List.length_cons, List.length_replicate]
  have hstart : ∀ j, j < 9999 →
      ∃ h : 1 + j < s4.tasks.length, s4.tasks[1 + j].pc = QPC.start := by
    intro j hj
    have hb : 1 + j < s4.tasks.length := by rw [hlen4]; omega
    have h1 : 1 + j = j + 1 := by omega
    have h2 : s4.tasks[1 + j]? = some (⟨QPC.start, 0⟩ : QTask) := by
      rw [hs4, h1]
      show ((⟨QPC.popping, 1⟩ : QTask) :: List.replicate 10000 ⟨QPC.start, 0⟩)[j + 1]? =
        some (⟨QPC.start, 0⟩ : QTask)
      rw [List.getElem?_cons_succ,
        List.getElem?_eq_getElem (by rw [List.length_replicate]; omega),
        List.getElem_replicate]
    rw [List.getElem?_eq_getElem hb, Option.some.injEq] at h2
    exact ⟨hb, by rw [h2]⟩
  obtain ⟨hident, hqueue, htrace, hlen, hframe⟩ :=
    runStartTriples 1 s4 (by rw [hs4]; show (1 : Nat) < 10000; omega) 9999 hstart
  set s5 := runSched s4 ((List.range 9999).flatMap (fun j => [1 + j, 1 + j, 1 + j])) with hs5
  have hid4 : s4.ident = 1 := by
    rw [hs4]
  have hq4 : s4.queue = [1] := by
    rw [hs4]
  have htrace4 : s4.trace = [QEv.enq 1, QEv.write 1, QEv.read 1] := by
    rw [hs4]
  have hid5 : s5.ident = 0 := by
    rw [hident, hid4]
  have hb5 : 10000 < s5.tasks.length := by
    rw [hlen, hlen4]
    omega
  have hg5 : s5.tasks[10000] = ⟨QPC.start, 0⟩ := by
    have h := hframe 10000 (by omega)
    have h2 : s4.tasks[10000]? = some (⟨QPC.start, 0⟩ : QTask) := by
      rw [hs4]
      show ((⟨QPC.popping, 1⟩ : QTask) :: List.replicate 10000 ⟨QPC.start, 0⟩)[10000]? =
        some (⟨QPC.start, 0⟩ : QTask)
      rw [show (10000 : Nat) = 9999 + 1 from rfl, List.getElem?_cons_succ,
        List.getElem?_eq_getElem (by rw [List.length_replicate]; omega),
        List.getElem_replicate]
    rw [h2, List.getElem?_eq_getElem hb5, Option.some.injEq] at h
    exact h
  have hq5 : s5.queue = 1 :: (List.range 9999).map (fun j => (s4.ident + 1 + j) % 10000) := by
    rw [hqueue, hq4]
    rfl
  have htr5 : s5.trace = [QEv.enq 1, QEv.write 1, QEv.read 1] ++
      (List.range 9999).map (fun j => QEv.enq ((s4.ident + 1 + j) % 10000)) := by
    rw [htrace, htrace4]
  clear hident hqueue htrace hframe hstart hlen hlen4 hq4 htrace4 hrw h4 hs5
  clear_value s5
  clear hs4
  clear_value s4
  have hstepA : stepTask s5 10000 = { s5 with
      ident := 1,
      queue := s5.queue ++ [1],
      trace := s5.trace ++ [QEv.enq 1],
      tasks := s5.tasks.set 10000 ⟨QPC.clearing, 1⟩ } := by
    unfold stepTask
    rw [dif_pos hb5]
    simp only [hg5, hid5]
  set s6 : QSys := { s5 with
      ident := 1,
      queue := s5.queue ++ [1],
      trace := s5.trace ++ [QEv.enq 1],
      tasks := s5.tasks.set 10000 ⟨QPC.clearing, 1⟩ } with hs6
  have hb6 : 10000 < s6.tasks.length := by
    rw [hs6]
    simpa [List.length_set] using hb5
  have hg6 : s6.tasks[10000] = ⟨QPC.clearing, 1⟩ := by
    simp [hs6]
  have hstepB : stepTask s6 10000 = { s6 with
      ev := false,
      tasks := s6.tasks.set 10000 ⟨QPC.checking, 1⟩ } := by
    unfold stepTask
    rw [dif_pos hb6]
    simp only [hg6]
  set s7 : QSys := { s6 with
      ev := false,
      tasks := s6.tasks.set 10000 ⟨QPC.checking, 1⟩ } with hs7
  have hb7 : 10000 < s7.tasks.length := by
    rw [hs7]
    simpa [List.length_set] using hb6
  have hg7 : s7.tasks[10000] = ⟨QPC.checking, 1⟩ := by
    simp [hs7]
  have hq7 : s7.queue.indexOf 1 = 0 := by
    have hq : s7.queue = 1 ::
        ((List.range 9999).map (fun j => (s4.ident + 1 + j) % 10000) ++ [1]) := by
      rw [hs7]
      show s6.queue = _
      rw [hs6]
      show s5.queue ++ [1] = _
      rw [hq5]
      rfl
    rw [hq]
    exact List.indexOf_cons_self 1 _
  have hstepC : stepTask s7 10000 = { s7 with
      tasks := s7.tasks.set 10000 ⟨QPC.writing, 1⟩ } := by
    unfold stepTask
    rw [dif_pos hb7]
    simp only [hg7]
    rw [if_pos hq7]
  set s8 : QSys := { s7 with tasks := s7.tasks.set 10000 ⟨QPC.writing, 1⟩ } with hs8
  have hb8 : 10000 < s8.tasks.length := by
    rw [hs8]
    simpa [List.length_set] using hb7
  have hg8 : s8.tasks[10000] = ⟨QPC.writing, 1⟩ := by
    simp [hs8]
  have hstepD : stepTask s8 10000 = { s8 with
      trace := s8.trace ++ [QEv.write 1, QEv.read 1],
      tasks := s8.tasks.set 10000 ⟨QPC.popping, 1⟩ } := by
    unfold stepTask
    rw [dif_pos hb8]
    simp only [hg8]
  have hrun : runSched s5 [10000, 10000, 10000, 10000] = stepTask s8 10000 := by
    show List.foldl stepTask s5 [10000, 10000, 10000, 10000] = stepTask s8 10000
    rw [List.foldl_cons, hstepA, List.foldl_cons, hstepB, List.foldl_cons, hstepC,
      List.foldl_cons, List.foldl_nil]
  rw [hrun, hstepD]
  show readIds (s8.trace ++ [QEv.write 1, QEv.read 1]) ≠
      (enqIds (s8.trace ++ [QEv.write 1, QEv.read 1])).take
        (readIds (s8.trace ++ [QEv.write 1, QEv.read 1])).length
  have htr8 : s8.trace = s5.trace ++ [QEv.enq 1] := by
    rw [hs8]
  have hreadF : readIds (s8.trace ++ [QEv.write 1, QEv.read 1]) = [1, 1] := by
    rw [htr8, htr5, readIds_append, readIds_append, readIds_append, readIds_map_enq]
    rfl
  have henqF : enqIds (s8.trace ++ [QEv.write 1, QEv.read 1]) =
      1 :: ((List.range 9999).map (fun j => (s4.ident + 1 + j) % 10000) ++ [1]) := by
    rw [htr8, htr5, enqIds_append, enqIds_append, enqIds_append, enqIds_map_enq]
    show (([1] ++ (List.range 9999).map (fun j => (s4.ident + 1 + j) % 10000)) ++ [1]) ++
        ([] : List Nat) =
      1 :: ((List.range 9999).map (fun j => (s4.ident + 1 + j) % 10000) ++ [1])
    rw [List.append_nil, List.append_assoc, List.singleton_append]
  have htake2 : ∀ (a b : Nat) (l : List Nat), (a :: b :: l).take 2 = [a, b] := by
    intro a b l
    rfl
  have htake : (enqIds (s8.trace ++ [QEv.write 1, QEv.read 1])).take 2 = [1, 2] := by
    rw [henqF,
      show (List.range 9999) = 0 :: (List.range 9998).map (· + 1) from
        List.range_succ_eq_map 9998,
      List.map_cons, List.cons_append, htake2, hid4]
  intro hcontra
  rw [hreadF] at hcontra
  rw [show (([1, 1] : List Nat)).length = 2 from rfl, htake] at hcontra
  simp at hcontra
